import Mathlib

/-!
# Verification of the RECAR Δ-diagnosability encoder and driver

A shallow embedding of the RECAR sources (`suggestion.py`, `parsert.py`,
`generate_automaton.py`, `automaton.py`, `transition.py`, `state.py`).

Modelling conventions:
* Python strings are modelled as `List Char`; `str.split(sep)` (non-empty
  separator) is modelled by `pySplitGo`.
* z3 `Int` variables are modelled as `ℤ`, z3 `Real` variables as `ℚ`
  (the encoding lives in linear rational arithmetic), z3 `Bool` as `Bool`.
* Fallible Python operations (list indexing that can raise `IndexError`,
  `float()` on a malformed literal, dictionary lookups that can raise
  `KeyError`) are modelled with `Option`; `none` is an uncaught exception.
* A z3 model is a `Trace`: a valuation of every step-indexed variable
  family.  The constraint set accumulated by the solver is a `Bool`-valued
  (hence executable) function of the trace; a trace is a model of a solver
  query exactly when the function returns `some true`.
-/

/-- Boolean implication `Implies a b` as used throughout the z3 encoding. -/
def bimp (a b : Bool) : Bool := !a || b

/-- Python list subscript `l[i]` for a non-negative index: `IndexError`
becomes `none`. -/
def pyIdx (l : List α) (i : ℕ) : Option α := l.get? i

/-- Whether `sep` is a prefix of the second list (decidable, over `Char`). -/
def isPrefixOfB : List Char → List Char → Bool
  | [], _ => true
  | _ :: _, [] => false
  | a :: as, b :: bs => a == b && isPrefixOfB as bs

/-- Fuel-indexed loop of `pySplitGo` (structural recursion on the fuel so
that the kernel can evaluate it; each step consumes at least one character,
so fuel `s.length` always suffices and the fuel-exhausted branch is
unreachable from `pySplitGo`). -/
def pySplitFuel (sep : List Char) : ℕ → List Char → List (List Char)
  | _, [] => [[]]
  | 0, s => [s]
  | fuel + 1, c :: rest =>
    if sep ≠ [] ∧ isPrefixOfB sep (c :: rest) = true then
      [] :: pySplitFuel sep fuel (List.drop (sep.length - 1) rest)
    else
      match pySplitFuel sep fuel rest with
      | [] => [[c]]
      | h₂ :: t => (c :: h₂) :: t

/-- Python `str.split(sep)` for a NON-empty separator, over `List Char`:
scan left to right, cutting at every non-overlapping occurrence of `sep`.
(Python raises `ValueError` on an empty separator; every separator used by
the sources is non-empty, and on `[]` this function degenerates to the
identity split.) -/
def pySplitGo (sep s : List Char) : List (List Char) :=
  pySplitFuel sep s.length s

/-- The decimal digit character of `d` (used with `d < 10`), i.e. the
characters produced by Python `str()` on a natural number. -/
def digitChar (d : ℕ) : Char := Char.ofNat (48 + d)

/-- Fuel-indexed accumulator loop of `natDigits` (the quotient by 10
strictly decreases, so fuel `n + 1` always suffices). -/
def natDigitsGo : ℕ → ℕ → List Char → List Char
  | 0, _, acc => acc
  | fuel + 1, n, acc =>
    if n < 10 then digitChar n :: acc
    else natDigitsGo fuel (n / 10) (digitChar (n % 10) :: acc)

/-- Python `str(n)` for a natural number `n`: its decimal digits. -/
def natDigits (n : ℕ) : List Char := natDigitsGo (n + 1) n []

/-- Parse a non-empty all-digit string as a natural number (`none` on a
malformed string). -/
def parseDigitsOpt (s : List Char) : Option ℕ :=
  if s = [] then none
  else s.foldl (fun acc c =>
    match acc with
    | none => none
    | some a => if c.isDigit then some (a * 10 + (c.toNat - 48)) else none)
    (some 0)

/-- Python `float()` restricted to the unsigned decimal literals that occur
as guard/invariant constants in RECAR input files (`"3"`, `"3.5"`, `"3."`,
`".5"`); anything else is a `ValueError`, i.e. `none`. -/
def pyFloat (s : List Char) : Option ℚ :=
  match pySplitGo ['.'] s with
  | [a] => (parseDigitsOpt a).map (fun n => (n : ℚ))
  | [a, b] =>
    if a = [] ∧ b = [] then none
    else
      match (if a = [] then some 0 else parseDigitsOpt a),
            (if b = [] then some 0 else parseDigitsOpt b) with
      | some ia, some ib => some ((ia : ℚ) + (ib : ℚ) / ((10 : ℚ) ^ b.length))
      | _, _ => none
  | _ => none

/-- Conjunction of an `Option Bool` for every element of a list, in order;
`none` (a raised exception) propagates. -/
def optionAll (f : α → Option Bool) : List α → Option Bool
  | [] => some true
  | a :: as =>
    match f a, optionAll f as with
    | some b, some c => some (b && c)
    | _, _ => none

/-! ## The timed-automaton data model (`state.py`, `transition.py`,
`automaton.py`)

State invariants are either the Python int `1` (trivial) or a textual
invariant string; `parseInv` in `suggestion.py` dispatches on
`isinstance(invariant, int)`. -/

/-- A state invariant: a Python `int` or an invariant string. -/
inductive InvariantV where
  | int (n : ℤ)
  | str (s : List Char)
deriving DecidableEq

/-- Models `state.py`: a state has an id and an invariant.  Python compares
`State` objects by identity; since `Automaton.addState` interns one object
per id, object identity coincides with id equality, which is how `StateV`
equality is used below. -/
structure StateV where
  id_state : ℤ
  invariant : InvariantV
deriving DecidableEq

/-- Models `transition.py`: source/target states, integer event label, guard atoms
(textual), reset list (0-based clock indices, as produced by
`parsert.Parser._parse_transition` and by `Z3Model.setup_transitions`). -/
structure TransitionV where
  source : StateV
  target : StateV
  event : ℤ
  guard : List (List Char)
  reset : List ℕ
deriving DecidableEq

instance : Inhabited TransitionV :=
  ⟨⟨⟨0, .int 1⟩, ⟨0, .int 1⟩, 0, [], []⟩⟩

/-- Models `automaton.py`: transition list (index = identity), id→state map
(insertion-ordered association list, insert-if-absent), initial state id,
running maximum state label, clock count.  The event-count fields and the
invariant dictionary are carried by the Python class but never read by the
encoder or driver, so they are omitted here. -/
structure AutomatonV where
  mapState : List (ℤ × StateV)
  transitionList : List TransitionV
  initialStateId : ℤ
  maxLabel : ℤ
  clockNum : ℕ
deriving DecidableEq

/-- Models `Automaton.addState`: update `maxLabel`, then insert the state if its
id is absent. -/
def AutomatonV.addState (A : AutomatonV) (stateId : ℤ) (inv : InvariantV) :
    AutomatonV :=
  let A := if stateId > A.maxLabel then { A with maxLabel := stateId } else A
  if (A.mapState.find? (fun p => p.1 = stateId)).isSome then A
  else { A with mapState := A.mapState ++ [(stateId, ⟨stateId, inv⟩)] }

/-- Models `Automaton.getState` / `self.mapState[id]`: `KeyError` is `none`. -/
def AutomatonV.getState? (A : AutomatonV) (stateId : ℤ) : Option StateV :=
  (A.mapState.find? (fun p => p.1 = stateId)).map (fun p => p.2)

/-- Models `Automaton.appendTransition`: look both endpoint states up in
`mapState` (the Python code asserts they are present) and append the
transition. -/
def AutomatonV.appendTransition? (A : AutomatonV) (sourceId finalId : ℤ)
    (event : ℤ) (guard : List (List Char)) (reset : List ℕ) :
    Option AutomatonV :=
  match A.getState? sourceId, A.getState? finalId with
  | some s, some t =>
    some { A with transitionList :=
            A.transitionList ++ [⟨s, t, event, guard, reset⟩] }
  | _, _ => none

/-- Models `Automaton.getInitialState`: `self.mapState[self.initialStateId]`. -/
def AutomatonV.getInitialState? (A : AutomatonV) : Option StateV :=
  A.getState? A.initialStateId

/-- Models `Automaton.getNbTransition`. -/
def AutomatonV.getNbTransition (A : AutomatonV) : ℕ := A.transitionList.length

/-- The guard list `['c1>=0', 'c2>=0', …]` built by `Automaton.__init__`
for the initial self-loop transition. -/
def initGuards (clockNum : ℕ) : List (List Char) :=
  (List.range clockNum).map (fun i => 'c' :: natDigits (i + 1) ++ ['>', '=', '0'])

/-- The guard list `['c1=0', 'c2=0', …]` that `Z3Model.setup_transitions`
attaches to the synthetic stutter transition it appends. -/
def nopGuards (clockNum : ℕ) : List (List Char) :=
  (List.range clockNum).map (fun i => 'c' :: natDigits (i + 1) ++ ['=', '0'])

/-- Models `Automaton.__init__(initialStateId, clockNum, …)`: adds state `-1` with
trivial invariant and the self-loop transition
`(-1, -1, event 0, ['c{i+1}>=0'…], no reset)` at index 0. -/
def automatonNew (initialStateId : ℤ) (clockNum : ℕ) : AutomatonV :=
  { mapState := [(-1, ⟨-1, .int 1⟩)],
    transitionList := [⟨⟨-1, .int 1⟩, ⟨-1, .int 1⟩, 0, initGuards clockNum, []⟩],
    initialStateId := initialStateId,
    maxLabel := -1,
    clockNum := clockNum }

/-! ## `Z3Model` class constants (`suggestion.py` lines 13-16) and the
attribute `self.initState = 0` set in `Z3Model.__init__`. -/

/-- Models `Z3Model.NOP = 0` (event label). -/
def NOP : ℤ := 0

/-- Models `Z3Model.FAULT = 1` (event label of the fault). -/
def FAULT : ℤ := 1

/-- Models `Z3Model.NO_OBS = 2` (event label of unobservable events). -/
def NO_OBS : ℤ := 2

/-- Models `Z3Model.NOP_TRANSITION = 0`: the transition INDEX the encoder treats
as the stutter sentinel. -/
def NOP_TRANSITION : ℤ := 0

/-- Models `Z3Model.__init__` sets `self.initState = 0`; `setup_transitions` uses
it as the target of the transition it appends. -/
def z3InitState : ℤ := 0

/-- Which of the two unrolled runs a constraint talks about
(`path_type` strings `'f'` / `'n'` in `suggestion.py`). -/
inductive PathType where
  | f
  | n
deriving DecidableEq

/-! ## `Z3Model.parseConstraints` (guard atom rewriting) -/

/-- One iteration of the `while constraints:` loop of
`Z3Model.parseConstraints` on a single guard atom:

    clock_num = constraint.split("c")[1].split(">")[0]
    clock = 'c' + clock_num
    parts = constraint.split(clock)
    for part in parts:
        if part:
            item = clock + part  (if part starts with ">")
                 | part + clock  (otherwise)
            parsed_constraints.append(item)

The `[1]` subscript raises `IndexError` (`none`) when the atom contains no
`'c'`. -/
def parseConstraint1 (c : List Char) : Option (List (List Char)) :=
  match pyIdx (pySplitGo ['c'] c) 1 with
  | none => none
  | some s1 =>
    let clock_num := (pySplitGo ['>'] s1).headD []
    let clock := 'c' :: clock_num
    let parts := pySplitGo clock c
    some (parts.foldl (fun acc part =>
      if part ≠ [] then
        acc ++ [if part.headD ' ' = '>' then clock ++ part else part ++ clock]
      else acc) [])

/-- Models `Z3Model.parseConstraints`: rewrite every atom of a guard, keeping the
results in order. -/
def parseConstraints : List (List Char) → Option (List (List Char))
  | [] => some []
  | c :: rest =>
    match parseConstraint1 c, parseConstraints rest with
    | some items, some others => some (items ++ others)
    | _, _ => none

/-! ## `Z3Model.transConstraints` (atom interpretation over step clocks) -/

/-- The clock name `"c" + str(j+1)` (entry `j` of the `clocklist` built by
`transConstraints`). -/
def clockName (j : ℕ) : List Char := 'c' :: natDigits (j + 1)

/-- The comparison selected by `transConstraints`' `flag`:
1 ↦ `>`, 2 ↦ `≥`, 3 ↦ `<`, 4 ↦ `≤`. -/
def flagCompare (flag : ℕ) (clockValue : ℚ) (number : ℚ) : Bool :=
  if flag = 1 then decide (clockValue > number)
  else if flag = 2 then decide (clockValue ≥ number)
  else if flag = 3 then decide (clockValue < number)
  else decide (clockValue ≤ number)

/-- The `(flag, number, clock)` triple computed by the body of
`Z3Model.transConstraints` for one rewritten atom; `none` models the
`IndexError`s of `parts[0][0]` / `split(">")[1]`. -/
def transConstraintParts (c : List Char) :
    Option (ℕ × List Char × List Char) :=
  let parts := pySplitGo ['='] c
  match pyIdx parts 0 with
  | none => none
  | some p0 =>
    match pyIdx p0 0 with
    | none => none
    | some h0 =>
      if h0 = 'c' then
        if parts.length = 1 then
          match pyIdx (pySplitGo ['>'] p0) 1 with
          | none => none
          | some n => some (1, n, (pySplitGo ['>'] p0).headD [])
        else
          match pyIdx parts 1 with
          | none => none
          | some n => some (2, n, (pySplitGo ['>'] p0).headD [])
      else
        if parts.length = 1 then
          match pyIdx (pySplitGo ['>'] p0) 1 with
          | none => none
          | some cl => some (3, (pySplitGo ['>'] p0).headD [], cl)
        else
          match pyIdx parts 1 with
          | none => none
          | some cl => some (4, (pySplitGo ['>'] p0).headD [], cl)

/-- A trace: a valuation of every step-indexed z3 variable family created
by `initialize_z3_variables` / `incVariableList`.  Two-index families take
the clock index first, then the step.  The `resetConstraint*` variables are
declared `Bool` at step 0 and `Int` at later steps; since every model pins
them to `True`/`False` (i.e. 1/0) through the chosen transition, they are
modelled as `Bool` throughout. -/
structure Trace where
  fp : ℕ → ℤ
  np : ℕ → ℤ
  lfp : ℕ → ℤ
  lnp : ℕ → ℤ
  idtFP : ℕ → ℤ
  idtNP : ℕ → ℤ
  lengthFP : ℕ → ℤ
  lengthNP : ℕ → ℤ
  labelTransition : ℕ → ℤ
  nopFP : ℕ → Bool
  nopNP : ℕ → Bool
  faultOccurs : ℕ → Bool
  checkSynchro : ℕ → Bool
  ccFP : ℕ → Bool
  ccNP : ℕ → Bool
  isObservable : ℕ → Bool
  resetFP : ℕ → ℕ → Bool
  resetNP : ℕ → ℕ → Bool
  sourceInvFP : ℕ → ℕ → Bool
  sourceInvNP : ℕ → ℕ → Bool
  finalInvFP : ℕ → ℕ → Bool
  finalInvNP : ℕ → ℕ → Bool
  cptFault : ℕ → ℚ
  gFP : ℕ → ℚ
  gNP : ℕ → ℚ
  delayFP : ℕ → ℚ
  delayNP : ℕ → ℚ
  clockFP : ℕ → ℕ → ℚ
  clockNP : ℕ → ℕ → ℚ
  bound : ℤ
  delta : ℚ

/-- The clock value `clockValue{Faulty,Normal}Path[j][idx]` read by
`transConstraints` and `parseInv`. -/
def Trace.clockValue (tr : Trace) (pt : PathType) (j idx : ℕ) : ℚ :=
  match pt with
  | .f => tr.clockFP j idx
  | .n => tr.clockNP j idx

/-- The inner `for j, clock_name in enumerate(clocklist): if clock ==
clock_name: … break` of `transConstraints`: the first matching clock index,
if any (no match appends nothing). -/
def findClock (clockNum : ℕ) (clockS : List Char) : Option ℕ :=
  (List.range clockNum).find? (fun j => clockS = clockName j)

/-- Models `Z3Model.transConstraints` on a single rewritten atom.  The outer
`Option` is an uncaught exception; the inner `Option` is `none` when no
clock name matches (nothing appended). -/
def transConstraint1 (clockNum : ℕ) (c : List Char) (idx : ℕ)
    (pt : PathType) (tr : Trace) : Option (Option Bool) :=
  match transConstraintParts c with
  | none => none
  | some (flag, numberS, clockS) =>
    match pyFloat numberS with
    | none => none
    | some number =>
      match findClock clockNum clockS with
      | none => some none
      | some j => some (some (flagCompare flag (tr.clockValue pt j idx) number))

/-- Models `Z3Model.transConstraints`: interpret every rewritten atom in order,
collecting the produced z3 conditions. -/
def transConstraints (clockNum : ℕ) (atoms : List (List Char)) (idx : ℕ)
    (pt : PathType) (tr : Trace) : Option (List Bool) :=
  match atoms with
  | [] => some []
  | a :: rest =>
    match transConstraint1 clockNum a idx pt tr,
          transConstraints clockNum rest idx pt tr with
    | some item, some others =>
      some (match item with | some b => b :: others | none => others)
    | _, _ => none

/-- Models `And(self.transConstraints(self.parseConstraints(guard), idx, pt))`:
the interpreted guard of a transition, as one boolean (`And []` = true). -/
def guardOf (clockNum : ℕ) (guard : List (List Char)) (idx : ℕ)
    (pt : PathType) (tr : Trace) : Option Bool :=
  match parseConstraints guard with
  | none => none
  | some atoms =>
    match transConstraints clockNum atoms idx pt tr with
    | none => none
    | some items => some (items.all id)

/-! ## `Z3Model.parseInv` (state invariant interpretation) -/

/-- Loop body of `Z3Model.parseInv` over the `';'`-separated invariant
atoms: the first atom whose `split('c')[1]` equals `str(clock+1)` yields
`clockValue[clock][pos] <= float(atom.split('>')[0])`; falling through
yields `True`. -/
def parseInvGo (clock pos : ℕ) (pt : PathType) (tr : Trace) :
    List (List Char) → Option Bool
  | [] => some true
  | inv :: rest =>
    match pyIdx (pySplitGo ['c'] inv) 1 with
    | none => none
    | some ci =>
      if ci = natDigits (clock + 1) then
        match pyFloat ((pySplitGo ['>'] inv).headD []) with
        | none => none
        | some number => some (decide (tr.clockValue pt clock pos ≤ number))
      else parseInvGo clock pos pt tr rest

/-- Models `Z3Model.parseInv`: an `int` invariant is `True` iff it equals 1;
otherwise interpret the invariant string. -/
def parseInv (invariant : InvariantV) (clock pos : ℕ) (pt : PathType)
    (tr : Trace) : Option Bool :=
  match invariant with
  | .int n => some (decide (n = 1))
  | .str s => parseInvGo clock pos pt tr (pySplitGo [';'] s)

/-! ## `Z3Model.setup_transitions` (preprocessing) -/

/-- Index `j`-th transition of an automaton (call sites keep `j` in
range; the default is `Inhabited.default`). -/
def AutomatonV.transAt (A : AutomatonV) (j : ℕ) : TransitionV :=
  A.transitionList.getD j default

/-- Python `==` on two `State` objects: object identity, i.e. id equality
(see `StateV`). -/
def stateEq (s t : StateV) : Bool := s.id_state == t.id_state

/-- Models `Z3Model.setup_transitions`: build the follower lists
`nextTransition[i] = [NOP_TRANSITION] ++ [j | final(i) = source(j)]` over
the automaton as parsed, append the synthetic stutter transition
`(maxLabel+1 → initState=0, event NO_OBS, guards 'c{i+1}=0', reset all
clocks)` after adding its fresh source state, and give the appended
transition the follower list `[NOP_TRANSITION] ++ [j | source(j) =
initial state]` (computed over the ALREADY-extended transition list).
`none` models the `KeyError`/assertion failures of `getInitialState` /
`appendTransition`. -/
def setupTransitions (A : AutomatonV) :
    Option (AutomatonV × List (List ℕ)) :=
  let m := A.getNbTransition
  let next0 : List (List ℕ) := (List.range m).map (fun i =>
    0 :: (List.range m).filter (fun j =>
      stateEq (A.transAt i).target (A.transAt j).source))
  let maxLS := A.maxLabel + 1
  let A1 := A.addState maxLS (.int 1)
  match A1.appendTransition? maxLS z3InitState NO_OBS
      (nopGuards A.clockNum) (List.range A.clockNum) with
  | none => none
  | some A2 =>
    match A2.getInitialState? with
    | none => none
    | some init =>
      let lastNext : List ℕ :=
        0 :: (List.range (m + 1)).filter (fun idx =>
          stateEq (A2.transAt idx).source init)
      some (A2, next0 ++ [lastNext])

/-- The encoder's state after preprocessing: the extended automaton plus
the follower lists. -/
structure EncSystem where
  auto : AutomatonV
  nextTransition : List (List ℕ)
deriving DecidableEq

/-- Models `Z3Model.__init__` up to `setup_transitions`. -/
def mkSystem (A : AutomatonV) : Option EncSystem :=
  match setupTransitions A with
  | none => none
  | some (A2, next) => some ⟨A2, next⟩

/-- Models `self.automaton.getNbTransition()` after preprocessing. -/
def EncSystem.nbTr (sys : EncSystem) : ℕ := sys.auto.getNbTransition

/-- Models `self.automaton.clockNum`. -/
def EncSystem.clockNum (sys : EncSystem) : ℕ := sys.auto.clockNum

/-- Models `self.maxLabelTransition`: maximum event id over the extended
transition list, starting from the initial attribute value 0
(`setup_transitions` lines 116-118). -/
def EncSystem.maxLabelTransition (sys : EncSystem) : ℤ :=
  sys.auto.transitionList.foldl
    (fun m t => if t.event > m then t.event else m) 0

/-- Event id of transition `j` (`getTransitionAt(j).getEventId()`). -/
def EncSystem.eventAt (sys : EncSystem) (j : ℕ) : ℤ := (sys.auto.transAt j).event

/-- Models `self.resetTransition[i][j]`: clock `i` is reset by transition `j`
(`setup_transitions` lines 108-112 build exactly the membership matrix of
the reset lists). -/
def EncSystem.resetAt (sys : EncSystem) (i j : ℕ) : Bool :=
  (sys.auto.transAt j).reset.contains i

/-! ## `Z3Model.addConstraintOnIdTransition` (per-step encoder) -/

/-- Body of the `for i in range(self.automaton.clockNum)` loop of the
per-transition loop of `addConstraintOnIdTransition` (lines 173-191), for
clock `i` of transition `j` at step `pos`: reset-flag binding and the
four selector-guarded invariant bindings (`none` is an uncaught
`IndexError`/`ValueError` raised while parsing an invariant string). -/
def stepJInvPart (sys : EncSystem) (pos j : ℕ) (tr : Trace) (i : ℕ) :
    Option Bool :=
  let t := sys.auto.transAt j
  let selF := decide (tr.fp pos = (j : ℤ))
  let selN := decide (tr.np pos = (j : ℤ))
  match parseInv t.source.invariant i pos .f tr,
        parseInv t.target.invariant i (pos + 1) .f tr,
        parseInv t.source.invariant i pos .n tr,
        parseInv t.target.invariant i (pos + 1) .n tr with
  | some srcF, some finF, some srcN, some finN =>
    some (bimp selF (tr.resetFP i pos == sys.resetAt i j) &&
          bimp selN (tr.resetNP i pos == sys.resetAt i j) &&
          bimp selF (tr.sourceInvFP i pos == srcF) &&
          bimp selF (tr.finalInvFP i pos == finF) &&
          bimp selN (tr.sourceInvNP i pos == srcN) &&
          bimp selN (tr.finalInvNP i pos == finN))
  | _, _, _, _ => none

/-- The body of the `for j in range(self.automaton.getNbTransition())`
loop of `addConstraintOnIdTransition` for one transition index `j`:
identity binding, guard binding, reset flags and invariant bindings,
all guarded by `faultyPath[pos] == j` / `normalPath[pos] == j`. -/
def stepJ (sys : EncSystem) (pos j : ℕ) (tr : Trace) : Option Bool :=
  let t := sys.auto.transAt j
  let selF := decide (tr.fp pos = (j : ℤ))
  let selN := decide (tr.np pos = (j : ℤ))
  match guardOf sys.clockNum t.guard pos .f tr,
        guardOf sys.clockNum t.guard pos .n tr with
  | some gF, some gN =>
    match optionAll (stepJInvPart sys pos j tr) (List.range sys.clockNum) with
    | some invPart =>
      some (bimp selF (tr.idtFP pos == tr.labelTransition j) &&
            bimp selF (tr.ccFP pos == gF) &&
            bimp selN (tr.idtNP pos == tr.labelTransition j) &&
            bimp selN (tr.ccNP pos == gN) &&
            invPart)
    | none => none
  | _, _ => none

/-- Models `self.isObservableTransition[pos]`: the list is created once in
`add_initial_constraints` with exactly `getNbTransition()` entries (the
variable for transition `i` at entry `i`), so subscripting it by the step
position raises `IndexError` (`none`) whenever `pos ≥ nbTr`. -/
def obsIdx (sys : EncSystem) (pos : ℕ) : Option ℕ :=
  (List.range sys.nbTr).get? pos

/-- The unguarded tail of `addConstraintOnIdTransition` (lines 193-236):
guard/invariant discharge, clock updates, delay non-negativity, global
clocks, NOP delay rule, length counters (only for `pos ≥ 1`), and the
observable-synchronization rules.  `obsV` is the variable index obtained
from `isObservableTransition[pos]`.

Note `globalClock…[pos-1]`: at `pos = 0` the Python `-1` subscript wraps
to the last (= only) element, index 0 — which is what ℕ-subtraction gives. -/
def totalStep (sys : EncSystem) (pos obsV : ℕ) (tr : Trace) : Bool :=
  (tr.ccFP pos == true) && (tr.ccNP pos == true) &&
  ((List.range sys.clockNum).all (fun j =>
    bimp (tr.resetFP j pos == true)
      (decide (tr.clockFP j (pos + 1) = 0 + tr.delayFP (pos + 1))) &&
    bimp (tr.resetFP j pos == false)
      (decide (tr.clockFP j (pos + 1) = tr.clockFP j pos + tr.delayFP (pos + 1))) &&
    bimp (tr.resetNP j pos == true)
      (decide (tr.clockNP j (pos + 1) = 0 + tr.delayNP (pos + 1))) &&
    bimp (tr.resetNP j pos == false)
      (decide (tr.clockNP j (pos + 1) = tr.clockNP j pos + tr.delayNP (pos + 1))) &&
    ((tr.sourceInvFP j pos == true) && (tr.finalInvFP j pos == true)) &&
    ((tr.sourceInvNP j pos == true) && (tr.finalInvNP j pos == true)))) &&
  decide (tr.delayFP pos ≥ 0) && decide (tr.delayNP pos ≥ 0) &&
  decide (tr.delayNP (pos + 1) ≥ 0) && decide (tr.delayFP (pos + 1) ≥ 0) &&
  decide (tr.gFP pos = tr.gFP (pos - 1) + tr.delayFP pos) &&
  decide (tr.gNP pos = tr.gNP (pos - 1) + tr.delayNP pos) &&
  bimp (decide (tr.fp pos = NOP_TRANSITION)) (decide (tr.delayFP (pos + 1) = 0)) &&
  bimp (decide (tr.np pos = NOP_TRANSITION)) (decide (tr.delayNP (pos + 1) = 0)) &&
  (if pos ≥ 1 then
    (if tr.fp pos = NOP_TRANSITION
     then decide (tr.lengthFP pos = tr.lengthFP (pos - 1))
     else decide (tr.lengthFP pos = tr.lengthFP (pos - 1) + 1)) &&
    (if tr.np pos = NOP_TRANSITION
     then decide (tr.lengthNP pos = tr.lengthNP (pos - 1))
     else decide (tr.lengthNP pos = tr.lengthNP (pos - 1) + 1))
   else true) &&
  (((decide (tr.idtFP pos > NO_OBS) || decide (tr.idtNP pos > NO_OBS)) &&
    tr.isObservable obsV) == tr.checkSynchro pos) &&
  (!(tr.checkSynchro pos) ||
    ((tr.idtFP pos == tr.idtNP pos) && decide (tr.gFP pos = tr.gNP pos)))

/-- Models `Z3Model.addConstraintOnIdTransition(pos)`: the conjunction of the
per-transition loop and the unguarded tail; `none` is an uncaught
exception (`IndexError` on `isObservableTransition[pos]`, or a guard /
invariant parsing failure inside the loop). -/
def addCOIT (sys : EncSystem) (pos : ℕ) (tr : Trace) : Option Bool :=
  match optionAll (fun j => stepJ sys pos j tr) (List.range sys.nbTr),
        obsIdx sys pos with
  | some perJ, some obsV => some (perJ && totalStep sys pos obsV tr)
  | _, _ => none

/-! ## `Z3Model.add_initial_constraints` and `Z3Model.incBound` -/

/-- Models `Z3Model.add_initial_constraints` (lines 127-160): the step-0
constraints, ending with `addConstraintOnIdTransition(0)`. -/
def initialConstraints (sys : EncSystem) (tr : Trace) : Option Bool :=
  match addCOIT sys 0 tr with
  | none => none
  | some c0 =>
    some (
      decide (tr.labelTransition 0 = 0) &&
      ((List.range sys.nbTr).all (fun x =>
        decide (tr.labelTransition x ≥ 0) &&
        decide (tr.labelTransition x ≤ sys.maxLabelTransition))) &&
      decide (tr.fp 0 = (sys.nbTr : ℤ) - 1) &&
      decide (tr.np 0 = (sys.nbTr : ℤ) - 1) &&
      decide (tr.fp 0 = tr.lfp 0) &&
      decide (tr.np 0 = tr.lnp 0) &&
      ((List.range sys.clockNum).all (fun i =>
        decide (tr.clockFP i 0 = 0) && decide (tr.clockNP i 0 = 0))) &&
      decide (tr.gFP 0 = 0) && decide (tr.gNP 0 = 0) &&
      decide (tr.idtNP 0 ≠ FAULT) &&
      (tr.nopFP 0 == false) && (tr.nopNP 0 == false) &&
      (tr.faultOccurs 0 == decide (tr.idtFP 0 = FAULT)) &&
      decide (tr.cptFault 0 = 0) &&
      decide (tr.bound ≥ 0) && decide (tr.delta ≥ 0) &&
      decide (tr.delayFP 0 = 0) && decide (tr.delayNP 0 = 0) &&
      decide (tr.lengthNP 0 = 0) && decide (tr.lengthFP 0 = 0) &&
      c0)

/-- Models `Z3Model.incBound` for `idx = len(self.faultyPath) ≥ 1` (lines
289-345): range bounds, last-active propagation, legal successors, normal
run excludes the fault, delay non-negativity, the recursive call to
`addConstraintOnIdTransition(idx)`, stutter flags and rules, and the fault
flag / fault counter rules. -/
def incBoundConstraints (sys : EncSystem) (idx : ℕ) (tr : Trace) :
    Option Bool :=
  match addCOIT sys idx tr with
  | none => none
  | some cI =>
    some (
      decide (tr.fp idx ≤ (sys.nbTr : ℤ)) &&
      decide (tr.np idx ≤ (sys.nbTr : ℤ)) &&
      decide (tr.idtFP idx ≤ sys.maxLabelTransition) &&
      decide (tr.idtNP idx ≤ sys.maxLabelTransition) &&
      bimp (decide (tr.fp idx = NOP_TRANSITION))
        (decide (tr.lfp idx = tr.lfp (idx - 1))) &&
      bimp (decide (tr.fp idx ≠ NOP_TRANSITION))
        (decide (tr.lfp idx = tr.fp idx)) &&
      bimp (decide (tr.np idx = NOP_TRANSITION))
        (decide (tr.lnp idx = tr.lnp (idx - 1))) &&
      bimp (decide (tr.np idx ≠ NOP_TRANSITION))
        (decide (tr.lnp idx = tr.np idx)) &&
      ((List.range sys.nbTr).all (fun j =>
        bimp (decide (tr.lfp (idx - 1) = (j : ℤ)))
          ((sys.nextTransition.getD j []).any (fun n => tr.fp idx == (n : ℤ))) &&
        bimp (decide (tr.lnp (idx - 1) = (j : ℤ)))
          ((sys.nextTransition.getD j []).any (fun n => tr.np idx == (n : ℤ))))) &&
      decide (tr.idtNP idx ≠ FAULT) &&
      decide (tr.delayFP idx ≥ 0) && decide (tr.delayNP idx ≥ 0) &&
      cI &&
      (tr.nopFP idx == decide (tr.fp idx = NOP_TRANSITION)) &&
      (tr.nopNP idx == decide (tr.np idx = NOP_TRANSITION)) &&
      (!(tr.nopFP idx) || !(tr.nopNP idx)) &&
      bimp (tr.nopFP (idx - 1))
        (tr.nopFP idx || decide (tr.idtFP idx > NO_OBS)) &&
      bimp (tr.nopNP (idx - 1))
        (tr.nopNP idx || decide (tr.idtNP idx > NO_OBS)) &&
      ((tr.faultOccurs (idx - 1) || decide (tr.idtFP idx = FAULT)) ==
        tr.faultOccurs idx) &&
      bimp (tr.faultOccurs (idx - 1) == false)
        (decide (tr.cptFault idx = 0)) &&
      bimp (tr.faultOccurs idx == false)
        (decide (tr.cptFault (idx + 1) = 0)) &&
      bimp (tr.faultOccurs idx == true)
        (decide (tr.cptFault (idx + 1) = tr.cptFault idx + tr.delayFP (idx + 1))))

/-- Models `Z3Model.run` lines 545-546: pin every `labelTransition[i]` to the
event id of transition `i` (added to the solver before the search loop,
hence part of every query). -/
def labelPinning (sys : EncSystem) (tr : Trace) : Bool :=
  (List.range sys.nbTr).all (fun i => tr.labelTransition i == sys.eventAt i)

/-- The hard constraint set held by the solver in round `t ≥ 1` of the
search loop (after `incBound` has been called for `idx = 1 … t`), and for
`t = 0` the state just before the loop: initial constraints, label
pinning, and `incBound 1 … incBound t`. -/
def solverConstraints (sys : EncSystem) (t : ℕ) (tr : Trace) : Option Bool :=
  match initialConstraints sys tr,
        optionAll (fun idx => incBoundConstraints sys idx tr)
          ((List.range t).map (· + 1)) with
  | some ini, some incs => some (ini && labelPinning sys tr && incs)
  | _, _ => none

/-- The full formula of the solver query of round `t ≥ 1` of
`Z3Model.run` with `DELTA = δ`: the hard constraints plus the facts forced
by the assumption literals actually passed to `check` — `assumD`
(`delta == DELTA`), `assumB` (`bound == len(faultyPath) = t+1`), `assumF`
(`cptFaultOccursByThePast[-1] = cptFault[t+1] == DELTA`), and the whole
`isObservableTransition` list (`tmp`).  The literal `assumFO`
(`faultOccurs[-1] == True`) is created but NOT passed to `check`
(`listAssum = [assumB, assumF] + tmp`), so it does not constrain models. -/
def queryAt (sys : EncSystem) (t : ℕ) (δ : ℚ) (tr : Trace) : Option Bool :=
  match solverConstraints sys t tr with
  | none => none
  | some base =>
    some (base &&
      decide (tr.delta = δ) &&
      decide (tr.bound = (t : ℤ) + 1) &&
      decide (tr.cptFault (t + 1) = δ) &&
      (List.range sys.nbTr).all tr.isObservable)

/-- The satisfiability question "is `DELTA = δ` satisfiable at step 0":
the solver state before any unrolling (`solverConstraints` at `t = 0`,
which constrains `cptFault[0]` through `cptFault[1]`) together with
`delta = δ` and `cptFault[0] = δ`. -/
def step0Query (sys : EncSystem) (δ : ℚ) (tr : Trace) : Option Bool :=
  match solverConstraints sys 0 tr with
  | none => none
  | some base =>
    some (base && decide (tr.delta = δ) && decide (tr.cptFault 0 = δ) &&
      (List.range sys.nbTr).all tr.isObservable)

/-! ## `Z3Model.run` (incremental search driver)

The solver's verdict in each round is abstracted by an oracle
`check : ℕ → SolverRes` giving the result of the round-`t` call to
`self.s.check(...)`. -/

/-- The three-valued result of a z3 `check` call. -/
inductive SolverRes where
  | sat
  | unsat
  | unknown
deriving DecidableEq

/-- What `Z3Model.run` reports. -/
inductive RunReport where
  /-- Case `res == sat` in round `t`: print `sat`, decode the model, return. -/
  | satAt (t : ℕ)
  /-- the loop exhausted `BOUND`: print `The problem is UNSAT`. -/
  | unsatReport
deriving DecidableEq

/-- The `while cpt <= self.BOUND` loop of `Z3Model.run`, also counting the
rounds performed so far (each round is one `incBound`, i.e. one extra
unrolled step; after round `t` the horizon `len(self.faultyPath)` is
`t + 1`).  Since `cpt` only ever increases by 1, the loop is equivalently
a countdown on `remaining = BOUND + 1 - cpt`, which is how it is phrased
here (structural recursion the kernel can evaluate).  Every result other
than `sat` (both `unsat` and `unknown`) takes the `else` branch, prints
`Increase the bound` and continues. -/
def runFrom (check : ℕ → SolverRes) : (remaining cpt rounds : ℕ) →
    RunReport × ℕ
  | 0, _, rounds => (.unsatReport, rounds)
  | r + 1, cpt, rounds =>
    match check cpt with
    | .sat => (.satAt cpt, rounds + 1)
    | _ => runFrom check r (cpt + 1) (rounds + 1)

/-- Models `Z3Model.run`'s search loop: `cpt` starts at 1, so `BOUND` iterations
remain. -/
def runDriver (BOUND : ℕ) (check : ℕ → SolverRes) : RunReport × ℕ :=
  runFrom check BOUND 1 0

/-- Outcome of `Z3Model.run` when the per-round constraint building is
tracked as well as the solver verdicts: the run prints `sat` in some
round, or exhausts `BOUND` and prints `The problem is UNSAT`, or dies
with an uncaught exception (`IndexError`) raised while ENCODING step
`pos` — before that round's solver call. -/
inductive RunOutcome where
  | satAt (t : ℕ)
  | unsatReport
  | crash (pos : ℕ)
deriving DecidableEq

/-- The `while cpt <= self.BOUND` loop of `Z3Model.run` with the
constraint building of each round made explicit: round `cpt` FIRST runs
`incBound()` — which encodes step `cpt` and raises `IndexError` (`none`)
when `addConstraintOnIdTransition` subscripts `isObservableTransition`
out of range — and only then queries the solver; an exception aborts the
run before any further round.  The trace argument only feeds the values
inside the built constraints: whether `incBoundConstraints` is `none`
does not depend on it (`incBound_none_trace_irrel`), so the crash
behaviour is well defined.  As in `runFrom`, the loop is phrased as a
countdown on `remaining = BOUND + 1 - cpt`. -/
def runEncode (sys : EncSystem) (tr : Trace) (check : ℕ → SolverRes) :
    (remaining cpt : ℕ) → RunOutcome
  | 0, _ => .unsatReport
  | r + 1, cpt =>
    match incBoundConstraints sys cpt tr with
    | none => .crash cpt
    | some _ =>
      match check cpt with
      | .sat => .satAt cpt
      | _ => runEncode sys tr check r (cpt + 1)

/-- Models `Z3Model.run`'s search loop with encoding tracked
(`runEncode` from `cpt = 1`). -/
def runDriverEncode (sys : EncSystem) (tr : Trace) (check : ℕ → SolverRes)
    (BOUND : ℕ) : RunOutcome :=
  runEncode sys tr check BOUND 1

/-! ## Event-id assignment in the two parsers
(`parsert.Parser._parse_header` and
`generate_automaton.Parser._parse_header`) -/

/-- Models `for i, key in enumerate(keys): dict[key] = g(i)` as a list of
assignments, starting at index `i0` (generic in the stored value, so the
same lemmas serve the `int`-valued and the `Option`-valued dictionaries). -/
def enumAssign {V : Type} (g : ℕ → V) : ℕ → List (List Char) → List (List Char × V)
  | _, [] => []
  | i, k :: ks => (k, g i) :: enumAssign g (i + 1) ks

/-- One Python dict assignment `d[k] = v`. -/
def dictUpd {V : Type} (d : List Char → V) (k : List Char) (v : V) :
    List Char → V :=
  fun n => if n = k then v else d n

/-- A sequence of dict assignments applied in order (later wins). -/
def applyUpds {V : Type} (assigns : List (List Char × V)) (d : List Char → V) :
    List Char → V :=
  assigns.foldl (fun acc kv => dictUpd acc kv.1 kv.2) d

/-- Models `parsert.Parser._parse_header` lines 57-61: a `defaultdict(int)`
receiving `event_dict[key] = i + 3` for the `i`-th (0-based) observable
name, THEN `event_dict[key] = 2` for every unobservable name. -/
def parsertEventDict (observable unobservable : List (List Char)) :
    List Char → ℤ :=
  applyUpds
    (enumAssign (fun i => (i : ℤ) + 3) 0 observable ++
      unobservable.map (fun k => (k, 2)))
    (fun _ => 0)

/-- The event id `parsert.Parser._parse_transition` attaches to an event
name: `1 if event == "f" else event_dict[event]`. -/
def parsertEventId (observable unobservable : List (List Char))
    (name : List Char) : ℤ :=
  if name = ['f'] then 1 else parsertEventDict observable unobservable name

/-- Models `generate_automaton.Parser._parse_header` lines 57-62:
`event_dict["f"] = 1`, then `event_dict[key] = i + 2` for the `i`-th
(0-based) unobservable name, then `event_dict[key] = i + 2 +
len(unobservable)` for the `i`-th observable name;
missing names default to `"unknown"` (`none`). -/
def genEventId (observable unobservable : List (List Char))
    (name : List Char) : Option ℤ :=
  applyUpds
    ((['f'], some 1) :: enumAssign (fun i => some ((i : ℤ) + 2)) 0 unobservable ++
      enumAssign (fun i => some ((i : ℤ) + 2 + unobservable.length)) 0 observable)
    (fun _ => none) name

/-- The step positions `1 … i` (the post-initialization steps up to and
including `i`). -/
def stepsUpTo (i : ℕ) : List ℕ := (List.range i).map (· + 1)

/-- The number of non-stutter steps the faulty run has taken through step
`i` (steps `1 … i` whose chosen transition is not the stutter sentinel;
position 0 is the synthetic initialization step, not a move). -/
def countNonNopFP (tr : Trace) (i : ℕ) : ℕ :=
  (stepsUpTo i).countP (fun j => decide (tr.fp j ≠ NOP_TRANSITION))

/-- Counterpart of `countNonNopFP` for the normal run. -/
def countNonNopNP (tr : Trace) (i : ℕ) : ℕ :=
  (stepsUpTo i).countP (fun j => decide (tr.np j ≠ NOP_TRANSITION))

/-! ## A concrete instance

The automaton parsed from the two-line input

    Initial_state 0 BOUND 1 DELTA 0 {o} {u} Clocks {c1}
    0 o 0 c1>=0 0

one state `0`, one clock, one observable self-loop with event id 3 and
guard `c1>=0`, trivial invariants; built through the same
`Automaton.addState` / `appendTransition` calls
`parsert.Parser._add_transitions_to_automaton` performs. -/
def exA0 : AutomatonV :=
  ((((automatonNew 0 1).addState 0 (.int 1)).addState 0 (.int 1)).appendTransition?
      0 0 3 [['c', '1', '>', '=', '0']] []).getD (automatonNew 0 1)

/-- The encoder system obtained from `exA0` by `setup_transitions`:
3 transitions — index 0 the constructor's self-loop at state −1 (event 0),
index 1 the parsed observable loop (event 3), index 2 the appended stutter
transition (state 1 → state 0, event 2, guard `c1=0`, reset `c1`). -/
def exSys : EncSystem :=
  (mkSystem exA0).getD ⟨automatonNew 0 1, []⟩

/-- A model of the round-1 solver query on `exSys` with `DELTA = 0` in
which NO fault ever occurs: both runs take the appended transition (index
2) at step 0 and then synchronously fire the observable loop (index 1) at
step 1, with all delays zero. -/
def exTrace : Trace where
  fp := fun i => if i = 0 then 2 else 1
  np := fun i => if i = 0 then 2 else 1
  lfp := fun i => if i = 0 then 2 else 1
  lnp := fun i => if i = 0 then 2 else 1
  idtFP := fun i => if i = 0 then 2 else 3
  idtNP := fun i => if i = 0 then 2 else 3
  lengthFP := fun i => if i = 0 then 0 else 1
  lengthNP := fun i => if i = 0 then 0 else 1
  labelTransition := fun j => if j = 0 then 0 else if j = 1 then 3 else 2
  nopFP := fun _ => false
  nopNP := fun _ => false
  faultOccurs := fun _ => false
  checkSynchro := fun i => decide (i ≠ 0)
  ccFP := fun _ => true
  ccNP := fun _ => true
  isObservable := fun _ => true
  resetFP := fun _ i => decide (i = 0)
  resetNP := fun _ i => decide (i = 0)
  sourceInvFP := fun _ _ => true
  sourceInvNP := fun _ _ => true
  finalInvFP := fun _ _ => true
  finalInvNP := fun _ _ => true
  cptFault := fun _ => 0
  gFP := fun _ => 0
  gNP := fun _ => 0
  delayFP := fun _ => 0
  delayNP := fun _ => 0
  clockFP := fun _ _ => 0
  clockNP := fun _ _ => 0
  bound := 2
  delta := 0

/-- A solver-result oracle that answers `unknown` in round 1 and `sat`
in round 2. -/
def exCheck : ℕ → SolverRes := fun t => if t = 2 then .sat else .unknown

/-! ## Helper lemmas -/

theorem bimp_true {a b : Bool} (h : bimp a b = true) (ha : a = true) :
    b = true := by
  cases a <;> cases b <;> simp_all [bimp]

theorem bimp_elim {p : Prop} [Decidable p] {b : Bool}
    (h : bimp (decide p) b = true) (hp : p) : b = true :=
  bimp_true h (decide_eq_true hp)

theorem optionAll_mem {α : Type} {f : α → Option Bool} :
    ∀ {l : List α}, optionAll f l = some true → ∀ a ∈ l, f a = some true := by
  intro l
  induction l with
  | nil => intro _ a ha; simp at ha
  | cons x xs ih =>
    intro h a ha
    unfold optionAll at h
    cases hf : f x <;> rw [hf] at h
    · exact absurd h (by simp)
    · cases ho : optionAll f xs <;> rw [ho] at h
      · exact absurd h (by simp)
      · simp only [Option.some.injEq, Bool.and_eq_true] at h
        rcases List.mem_cons.mp ha with rfl | hmem
        · rw [hf, h.1]
        · exact ih (by rw [ho, h.2]) a hmem

theorem optionAll_none {α : Type} {f : α → Option Bool} {a : α} :
    ∀ {l : List α}, a ∈ l → f a = none → optionAll f l = none := by
  intro l
  induction l with
  | nil => intro ha; simp at ha
  | cons x xs ih =>
    intro ha hf
    unfold optionAll
    rcases List.mem_cons.mp ha with rfl | hmem
    · rw [hf]
    · rw [ih hmem hf]
      cases f x <;> rfl

theorem mem_range_map_succ {idx t : ℕ} :
    idx ∈ (List.range t).map (· + 1) ↔ 1 ≤ idx ∧ idx ≤ t := by
  simp only [List.mem_map, List.mem_range]
  constructor
  · rintro ⟨k, hk, rfl⟩; omega
  · rintro ⟨h1, h2⟩; exact ⟨idx - 1, by omega, by omega⟩

/-! ### Extraction lemmas for the per-step encoder -/

theorem obsIdx_eq_some {sys : EncSystem} {pos : ℕ} (h : pos < sys.nbTr) :
    obsIdx sys pos = some pos := by
  unfold obsIdx
  rw [List.get?_eq_get (by simpa using h)]
  simp

theorem obsIdx_eq_none {sys : EncSystem} {pos : ℕ} (h : sys.nbTr ≤ pos) :
    obsIdx sys pos = none := by
  unfold obsIdx
  exact List.get?_eq_none.mpr (by simpa using h)

theorem obsIdx_inv {sys : EncSystem} {pos v : ℕ} (h : obsIdx sys pos = some v) :
    v = pos ∧ pos < sys.nbTr := by
  by_cases hlt : pos < sys.nbTr
  · rw [obsIdx_eq_some hlt] at h
    exact ⟨(Option.some.injEq _ _ ▸ h).symm, hlt⟩
  · rw [obsIdx_eq_none (by omega)] at h
    exact absurd h (by simp)

theorem addCOIT_parts {sys : EncSystem} {pos : ℕ} {tr : Trace}
    (h : addCOIT sys pos tr = some true) :
    (∀ j < sys.nbTr, stepJ sys pos j tr = some true) ∧
    pos < sys.nbTr ∧ totalStep sys pos pos tr = true := by
  unfold addCOIT at h
  cases hJ : optionAll (fun j => stepJ sys pos j tr) (List.range sys.nbTr) <;>
    rw [hJ] at h
  · exact absurd h (by simp)
  · cases hO : obsIdx sys pos <;> rw [hO] at h
    · exact absurd h (by simp)
    · obtain ⟨rfl, hlt⟩ := obsIdx_inv hO
      simp only [Option.some.injEq, Bool.and_eq_true] at h
      refine ⟨fun j hj => ?_, hlt, h.2⟩
      exact optionAll_mem (by rw [hJ, h.1]) j (List.mem_range.mpr hj)

theorem addCOIT_none_of_ge {sys : EncSystem} {pos : ℕ} (tr : Trace)
    (h : sys.nbTr ≤ pos) : addCOIT sys pos tr = none := by
  unfold addCOIT
  rw [obsIdx_eq_none h]
  cases optionAll (fun j => stepJ sys pos j tr) (List.range sys.nbTr) <;> rfl

theorem totalStep_sync {sys : EncSystem} {pos obsV : ℕ} {tr : Trace}
    (h : totalStep sys pos obsV tr = true)
    (hc : tr.checkSynchro pos = true) :
    tr.idtFP pos = tr.idtNP pos ∧ tr.gFP pos = tr.gNP pos := by
  unfold totalStep at h
  simp only [Bool.and_eq_true] at h
  have hs := h.2
  rw [hc] at hs
  simp only [Bool.not_true, Bool.false_or, Bool.and_eq_true, beq_iff_eq,
    decide_eq_true_eq] at hs
  exact hs

theorem totalStep_nop_delay {sys : EncSystem} {pos obsV : ℕ} {tr : Trace}
    (h : totalStep sys pos obsV tr = true) :
    (tr.fp pos = NOP_TRANSITION → tr.delayFP (pos + 1) = 0) ∧
    (tr.np pos = NOP_TRANSITION → tr.delayNP (pos + 1) = 0) := by
  unfold totalStep at h
  simp only [Bool.and_eq_true] at h
  constructor
  · intro hfp
    exact of_decide_eq_true (bimp_elim h.1.1.1.1.2 hfp)
  · intro hnp
    exact of_decide_eq_true (bimp_elim h.1.1.1.2 hnp)

theorem totalStep_length {sys : EncSystem} {pos obsV : ℕ} {tr : Trace}
    (h : totalStep sys pos obsV tr = true) (hp : 1 ≤ pos) :
    (tr.fp pos = NOP_TRANSITION → tr.lengthFP pos = tr.lengthFP (pos - 1)) ∧
    (tr.fp pos ≠ NOP_TRANSITION → tr.lengthFP pos = tr.lengthFP (pos - 1) + 1) ∧
    (tr.np pos = NOP_TRANSITION → tr.lengthNP pos = tr.lengthNP (pos - 1)) ∧
    (tr.np pos ≠ NOP_TRANSITION → tr.lengthNP pos = tr.lengthNP (pos - 1) + 1) := by
  unfold totalStep at h
  simp only [Bool.and_eq_true] at h
  have hl := h.1.1.2
  rw [if_pos hp, Bool.and_eq_true] at hl
  refine ⟨fun hfp => ?_, fun hfp => ?_, fun hnp => ?_, fun hnp => ?_⟩
  · have := hl.1; rw [if_pos hfp] at this; exact of_decide_eq_true this
  · have := hl.1; rw [if_neg hfp] at this; exact of_decide_eq_true this
  · have := hl.2; rw [if_pos hnp] at this; exact of_decide_eq_true this
  · have := hl.2; rw [if_neg hnp] at this; exact of_decide_eq_true this


theorem stepJ_idtFP {sys : EncSystem} {pos j : ℕ} {tr : Trace}
    (h : stepJ sys pos j tr = some true) (hfp : tr.fp pos = (j : ℤ)) :
    tr.idtFP pos = tr.labelTransition j := by
  simp only [stepJ] at h
  split at h
  · next gF gN heq =>
    split at h
    · next invPart hip =>
      simp only [Option.some.injEq, Bool.and_eq_true] at h
      have := bimp_elim h.1.1.1.1 hfp
      simpa [beq_iff_eq] using this
    · exact absurd h (by simp)
  · exact absurd h (by simp)

theorem initialConstraints_parts {sys : EncSystem} {tr : Trace}
    (h : initialConstraints sys tr = some true) :
    addCOIT sys 0 tr = some true ∧
    tr.fp 0 = (sys.nbTr : ℤ) - 1 ∧
    tr.faultOccurs 0 = decide (tr.idtFP 0 = FAULT) ∧
    tr.cptFault 0 = 0 ∧
    tr.lengthFP 0 = 0 ∧ tr.lengthNP 0 = 0 := by
  simp only [initialConstraints] at h
  split at h
  · exact absurd h (by simp)
  · next c0 heq =>
    simp only [Option.some.injEq, Bool.and_eq_true, decide_eq_true_eq,
      beq_iff_eq] at h
    refine ⟨?_, by tauto, by tauto, by tauto, by tauto, by tauto⟩
    rw [heq]
    simp only [Option.some.injEq]
    tauto

theorem incBound_parts {sys : EncSystem} {idx : ℕ} {tr : Trace}
    (h : incBoundConstraints sys idx tr = some true) :
    addCOIT sys idx tr = some true ∧
    (tr.faultOccurs (idx - 1) || decide (tr.idtFP idx = FAULT)) = tr.faultOccurs idx ∧
    (tr.faultOccurs (idx - 1) = false → tr.cptFault idx = 0) ∧
    (tr.faultOccurs idx = false → tr.cptFault (idx + 1) = 0) ∧
    (tr.faultOccurs idx = true →
      tr.cptFault (idx + 1) = tr.cptFault idx + tr.delayFP (idx + 1)) ∧
    (tr.fp idx = NOP_TRANSITION → tr.lfp idx = tr.lfp (idx - 1)) := by
  simp only [incBoundConstraints] at h
  split at h
  · exact absurd h (by simp)
  · next cI heq =>
    simp only [Option.some.injEq, Bool.and_eq_true, beq_iff_eq] at h
    refine ⟨?_, by tauto, ?_, ?_, ?_, ?_⟩
    · rw [heq]
      simp only [Option.some.injEq]
      tauto
    · intro hfo
      have hb : bimp (tr.faultOccurs (idx - 1) == false)
          (decide (tr.cptFault idx = 0)) = true := by tauto
      exact of_decide_eq_true (bimp_true hb (by rw [hfo]; rfl))
    · intro hfo
      have hb : bimp (tr.faultOccurs idx == false)
          (decide (tr.cptFault (idx + 1) = 0)) = true := by tauto
      exact of_decide_eq_true (bimp_true hb (by rw [hfo]; rfl))
    · intro hfo
      have hb : bimp (tr.faultOccurs idx == true)
          (decide (tr.cptFault (idx + 1) = tr.cptFault idx + tr.delayFP (idx + 1))) =
          true := by tauto
      exact of_decide_eq_true (bimp_true hb (by rw [hfo]; rfl))
    · intro hfp
      have hb : bimp (decide (tr.fp idx = NOP_TRANSITION))
          (decide (tr.lfp idx = tr.lfp (idx - 1))) = true := by tauto
      exact of_decide_eq_true (bimp_elim hb hfp)

theorem labelPinning_parts {sys : EncSystem} {tr : Trace}
    (h : labelPinning sys tr = true) :
    ∀ i < sys.nbTr, tr.labelTransition i = sys.eventAt i := by
  intro i hi
  unfold labelPinning at h
  rw [List.all_eq_true] at h
  exact beq_iff_eq.mp (h i (List.mem_range.mpr hi))

theorem solverConstraints_parts {sys : EncSystem} {t : ℕ} {tr : Trace}
    (h : solverConstraints sys t tr = some true) :
    initialConstraints sys tr = some true ∧
    labelPinning sys tr = true ∧
    ∀ idx, 1 ≤ idx → idx ≤ t → incBoundConstraints sys idx tr = some true := by
  simp only [solverConstraints] at h
  split at h
  · next ini incs hini hincs =>
    simp only [Option.some.injEq, Bool.and_eq_true] at h
    exact ⟨by rw [hini, h.1.1], h.1.2, fun idx h1 h2 =>
      optionAll_mem (by rw [hincs, h.2]) idx (mem_range_map_succ.mpr ⟨h1, h2⟩)⟩
  · exact absurd h (by simp)

theorem queryAt_parts {sys : EncSystem} {t : ℕ} {δ : ℚ} {tr : Trace}
    (h : queryAt sys t δ tr = some true) :
    solverConstraints sys t tr = some true ∧
    tr.delta = δ ∧
    tr.bound = (t : ℤ) + 1 ∧
    tr.cptFault (t + 1) = δ ∧
    ∀ j < sys.nbTr, tr.isObservable j = true := by
  simp only [queryAt] at h
  split at h
  · exact absurd h (by simp)
  · next base hbase =>
    simp only [Option.some.injEq, Bool.and_eq_true, decide_eq_true_eq] at h
    refine ⟨by rw [hbase, h.1.1.1.1], h.1.1.1.2, h.1.1.2, h.1.2, fun j hj => ?_⟩
    rw [List.all_eq_true] at h
    exact h.2 j (List.mem_range.mpr hj)

theorem queryAt_addCOIT {sys : EncSystem} {t : ℕ} {δ : ℚ} {tr : Trace}
    (h : queryAt sys t δ tr = some true) :
    ∀ i ≤ t, addCOIT sys i tr = some true := by
  intro i hi
  obtain ⟨hs, -⟩ := queryAt_parts h
  obtain ⟨hini, -, hinc⟩ := solverConstraints_parts hs
  rcases Nat.eq_zero_or_pos i with rfl | hpos
  · exact (initialConstraints_parts hini).1
  · exact (incBound_parts (hinc i hpos hi)).1

/-! ### Structure of the preprocessed automaton -/

theorem addState_transitionList (A : AutomatonV) (i : ℤ) (inv : InvariantV) :
    (A.addState i inv).transitionList = A.transitionList := by
  simp only [AutomatonV.addState]
  split <;> split <;> rfl

theorem appendTransition_inv {A A' : AutomatonV} {a b e : ℤ}
    {g : List (List Char)} {r : List ℕ}
    (h : A.appendTransition? a b e g r = some A') :
    ∃ st tt, A' = { A with transitionList :=
      A.transitionList ++ [⟨st, tt, e, g, r⟩] } := by
  unfold AutomatonV.appendTransition? at h
  split at h
  · next s t hs ht => exact ⟨s, t, by simpa using h.symm⟩
  · exact absurd h (by simp)

theorem setupTransitions_inv {A A2 : AutomatonV} {nx : List (List ℕ)}
    (h : setupTransitions A = some (A2, nx)) :
    ∃ st tt, A2.transitionList = A.transitionList ++
      [⟨st, tt, NO_OBS, nopGuards A.clockNum, List.range A.clockNum⟩] := by
  simp only [setupTransitions] at h
  split at h
  · exact absurd h (by simp)
  · next A2' happ =>
    split at h
    · exact absurd h (by simp)
    · next init hinit =>
      simp only [Option.some.injEq, Prod.mk.injEq] at h
      obtain ⟨st, tt, hA2'⟩ := appendTransition_inv happ
      refine ⟨st, tt, ?_⟩
      rw [← h.1, hA2']
      simp [addState_transitionList]

theorem mkSystem_facts {A : AutomatonV} {sys : EncSystem}
    (h : mkSystem A = some sys) :
    sys.nbTr = A.getNbTransition + 1 ∧
    sys.eventAt (sys.nbTr - 1) = NO_OBS ∧
    (sys.auto.transAt (sys.nbTr - 1)).guard = nopGuards A.clockNum ∧
    (sys.auto.transAt (sys.nbTr - 1)).reset = List.range A.clockNum ∧
    sys.auto.transitionList.getLast? = some (sys.auto.transAt (sys.nbTr - 1)) := by
  simp only [mkSystem] at h
  split at h
  · exact absurd h (by simp)
  · next A2 nx hsetup =>
    simp only [Option.some.injEq] at h
    obtain ⟨st, tt, hlist⟩ := setupTransitions_inv hsetup
    subst h
    have hlen : EncSystem.nbTr ⟨A2, nx⟩ = A.getNbTransition + 1 := by
      simp [EncSystem.nbTr, AutomatonV.getNbTransition, hlist]
    have htrans : (EncSystem.auto ⟨A2, nx⟩).transAt
        (EncSystem.nbTr ⟨A2, nx⟩ - 1) =
        ⟨st, tt, NO_OBS, nopGuards A.clockNum, List.range A.clockNum⟩ := by
      simp only [hlen, EncSystem.auto, AutomatonV.transAt,
        AutomatonV.getNbTransition, Nat.add_sub_cancel]
      rw [hlist]
      simp [List.getD, AutomatonV.getNbTransition, List.getElem?_concat_length]
    refine ⟨hlen, ?_, ?_, ?_, ?_⟩
    · simp [EncSystem.eventAt, htrans]
    · simp [htrans]
    · simp [htrans]
    · simp only [EncSystem.auto] at htrans ⊢
      rw [hlist, htrans]
      simp [List.getLast?_concat]

theorem faultOccurs_zero_false {A : AutomatonV} {sys : EncSystem} {t : ℕ}
    {δ : ℚ} {tr : Trace} (hA : mkSystem A = some sys)
    (h : queryAt sys t δ tr = some true) : tr.faultOccurs 0 = false := by
  obtain ⟨hs, -⟩ := queryAt_parts h
  obtain ⟨hini, hpin, -⟩ := solverConstraints_parts hs
  obtain ⟨hc0, hfp0, hfoEq, -⟩ := initialConstraints_parts hini
  obtain ⟨hstep, -, -⟩ := addCOIT_parts hc0
  obtain ⟨hlen, hev, -⟩ := mkSystem_facts hA
  have h1 : 1 ≤ sys.nbTr := by omega
  have hfp : tr.fp 0 = ((sys.nbTr - 1 : ℕ) : ℤ) := by
    rw [hfp0, Nat.cast_sub h1]; rfl
  have hidt := stepJ_idtFP (hstep (sys.nbTr - 1) (by omega)) hfp
  have hlab := labelPinning_parts hpin (sys.nbTr - 1) (by omega)
  rw [hfoEq, hidt, hlab, hev]
  rfl

/-! ## Claim theorems -/

/-- Claim C2. In every model returned by a satisfiable solver query, for
every step `i` of the unrolled horizon, if `checkSynchro[i]` holds then
the two runs fire the same event label (`idt_fp[i] = idt_np[i]`) and their
global clocks agree (`g_fp[i] = g_np[i]`): when either run fires an
observable event under the observability assumptions, both runs fire the
same observable event at the same global time
(`Z3Model.addConstraintOnIdTransition`, lines 233-236). -/
theorem C2_observable_synchronization (sys : EncSystem) (t : ℕ) (δ : ℚ)
    (tr : Trace) (i : ℕ) (hit : i ≤ t)
    (h : queryAt sys t δ tr = some true)
    (hc : tr.checkSynchro i = true) :
    tr.idtFP i = tr.idtNP i ∧ tr.gFP i = tr.gNP i := by
  obtain ⟨-, -, hts⟩ := addCOIT_parts (queryAt_addCOIT h i hit)
  exact totalStep_sync hts hc

/-- Witness for `C2_observable_synchronization`: the concrete round-1
model `exTrace` fires the observable event 3 on both runs at step 1 at
global time 0. -/
theorem C2_witness :
    (1 : ℕ) ≤ 1 ∧ queryAt exSys 1 0 exTrace = some true ∧
    exTrace.checkSynchro 1 = true ∧
    (exTrace.idtFP 1 = exTrace.idtNP 1 ∧ exTrace.gFP 1 = exTrace.gNP 1) :=
  ⟨le_rfl, by with_unfolding_all rfl, by decide,
   C2_observable_synchronization exSys 1 0 exTrace 1 le_rfl
     (by with_unfolding_all rfl) (by decide)⟩

/-- Claim C1, counterexample to the claim as stated.  `exTrace` is a model
of the round-1 solver query on `exSys` with `DELTA = 0` (so `run()` can
report sat and decode exactly this model), yet `faultOccurs` at the last
unrolled step is false: no fault occurs anywhere in the witness.  The
literal `assumFO` forcing `faultOccurs[-1]` is created but never passed to
`check` (`listAssum = [assumB, assumF] + tmp` in `Z3Model.run`), so with
`DELTA = 0` nothing forces the fault to have occurred. -/
theorem C1_counterexample :
    queryAt exSys 1 0 exTrace = some true ∧
    ¬(exTrace.faultOccurs 1 = true) :=
  ⟨by with_unfolding_all rfl, by decide⟩

/-- Claim C1, amended.  Whenever `run()` reports sat at horizon `t ≥ 1`
with tolerance `δ`, every model of the query it decodes fixes
`cptFault[t+1] = δ` (this is the assumption literal `assumF`, which IS
passed to `check`); and whenever `δ ≠ 0` the flag `faultOccurs[t]` is
additionally true, because `¬faultOccurs[t] ⇒ cptFault[t+1] = 0`.  For
`δ = 0` the fault need not have occurred (see `C1_counterexample`). -/
theorem C1_sat_model_fixes_counter (sys : EncSystem) (t : ℕ) (δ : ℚ)
    (tr : Trace) (ht : 1 ≤ t) (h : queryAt sys t δ tr = some true) :
    tr.cptFault (t + 1) = δ ∧ (δ ≠ 0 → tr.faultOccurs t = true) := by
  obtain ⟨hs, -, -, hcpt, -⟩ := queryAt_parts h
  refine ⟨hcpt, fun hδ => ?_⟩
  obtain ⟨-, -, hinc⟩ := solverConstraints_parts hs
  obtain ⟨-, -, -, hzero, -, -⟩ := incBound_parts (hinc t ht le_rfl)
  cases hfa : tr.faultOccurs t
  · exact absurd (hcpt.symm.trans (hzero hfa)) hδ
  · rfl

/-- Witness for `C1_sat_model_fixes_counter` at the concrete round-1
query. -/
theorem C1_witness :
    (1 : ℕ) ≤ 1 ∧ queryAt exSys 1 0 exTrace = some true ∧
    (exTrace.cptFault 2 = 0 ∧ ((0 : ℚ) ≠ 0 → exTrace.faultOccurs 1 = true)) :=
  ⟨le_rfl, by with_unfolding_all rfl,
   C1_sat_model_fixes_counter exSys 1 0 exTrace le_rfl
     (by with_unfolding_all rfl)⟩

/-- Claim C3. In every model returned by a satisfiable solver query over a
preprocessed automaton: `cptFault[0] = 0`
(`add_initial_constraints` line 148), `cptFault[i] = 0` whenever
`faultOccurs[i]` is false, and whenever `faultOccurs[i]` is true the
counter advances by the faulty run's next delay,
`cptFault[i+1] = cptFault[i] + delay_fp[i+1]` (`incBound` lines 336-345;
at `i = 0` the advance rule holds vacuously because the initial step takes
the appended `NO_OBS`-labelled transition, so `faultOccurs[0]` is false). -/
theorem C3_fault_counter (A : AutomatonV) (sys : EncSystem) (t : ℕ) (δ : ℚ)
    (tr : Trace) (hA : mkSystem A = some sys)
    (h : queryAt sys t δ tr = some true) :
    tr.cptFault 0 = 0 ∧
    (∀ i ≤ t, tr.faultOccurs i = false → tr.cptFault i = 0) ∧
    (∀ i ≤ t, tr.faultOccurs i = true →
      tr.cptFault (i + 1) = tr.cptFault i + tr.delayFP (i + 1)) := by
  obtain ⟨hs, -⟩ := queryAt_parts h
  obtain ⟨hini, -, hinc⟩ := solverConstraints_parts hs
  obtain ⟨-, -, -, hcpt0, -⟩ := initialConstraints_parts hini
  refine ⟨hcpt0, ?_, ?_⟩
  · intro i hit hfo
    rcases Nat.eq_zero_or_pos i with rfl | hpos
    · exact hcpt0
    · obtain ⟨-, hfoEq, hprev, -⟩ := incBound_parts (hinc i hpos hit)
      refine hprev ?_
      cases hp : tr.faultOccurs (i - 1)
      · rfl
      · rw [hp] at hfoEq
        simp only [Bool.true_or] at hfoEq
        rw [← hfoEq] at hfo
        exact absurd hfo (by simp)
  · intro i hit hfo
    rcases Nat.eq_zero_or_pos i with rfl | hpos
    · exact absurd hfo (by rw [faultOccurs_zero_false hA h]; simp)
    · exact (incBound_parts (hinc i hpos hit)).2.2.2.2.1 hfo

/-- Witness for `C3_fault_counter` at the concrete round-1 query: no
fault occurs anywhere, and the counter is identically 0. -/
theorem C3_witness :
    mkSystem exA0 = some exSys ∧ queryAt exSys 1 0 exTrace = some true ∧
    (exTrace.cptFault 0 = 0 ∧
     (∀ i ≤ 1, exTrace.faultOccurs i = false → exTrace.cptFault i = 0) ∧
     (∀ i ≤ 1, exTrace.faultOccurs i = true →
       exTrace.cptFault (i + 1) = exTrace.cptFault i + exTrace.delayFP (i + 1))) :=
  ⟨by decide, by with_unfolding_all rfl,
   C3_fault_counter exA0 exSys 1 0 exTrace (by decide)
     (by with_unfolding_all rfl)⟩

theorem countNonNopFP_succ (tr : Trace) (i : ℕ) :
    countNonNopFP tr (i + 1) =
    countNonNopFP tr i + (if tr.fp (i + 1) ≠ NOP_TRANSITION then 1 else 0) := by
  unfold countNonNopFP stepsUpTo
  rw [List.range_succ, List.map_append, List.countP_append]
  simp [List.countP_cons]

theorem countNonNopNP_succ (tr : Trace) (i : ℕ) :
    countNonNopNP tr (i + 1) =
    countNonNopNP tr i + (if tr.np (i + 1) ≠ NOP_TRANSITION then 1 else 0) := by
  unfold countNonNopNP stepsUpTo
  rw [List.range_succ, List.map_append, List.countP_append]
  simp [List.countP_cons]

theorem countNonNopFP_le (tr : Trace) (i : ℕ) : countNonNopFP tr i ≤ i := by
  unfold countNonNopFP
  calc List.countP (fun j => decide (tr.fp j ≠ NOP_TRANSITION)) (stepsUpTo i) ≤
      (stepsUpTo i).length := List.countP_le_length _
    _ = i := by simp [stepsUpTo]

theorem countNonNopNP_le (tr : Trace) (i : ℕ) : countNonNopNP tr i ≤ i := by
  unfold countNonNopNP
  calc List.countP (fun j => decide (tr.np j ≠ NOP_TRANSITION)) (stepsUpTo i) ≤
      (stepsUpTo i).length := List.countP_le_length _
    _ = i := by simp [stepsUpTo]

/-- Claim C7. In every model returned by a satisfiable solver query, for
every step `i` of the unrolled horizon, `length_fp[i] ≤ i` and
`length_fp[i]` equals the number of non-NOP steps taken on the faulty run
through step `i` (steps `1 … i` whose chosen transition index differs from
the stutter sentinel; position 0 is the synthetic initialization), and
symmetrically for `length_np[i]` (`add_initial_constraints` lines 155-156
and `addConstraintOnIdTransition` lines 225-231). -/
theorem C7_length_counters (sys : EncSystem) (t : ℕ) (δ : ℚ) (tr : Trace)
    (h : queryAt sys t δ tr = some true) :
    ∀ i ≤ t, tr.lengthFP i = (countNonNopFP tr i : ℤ) ∧
      tr.lengthFP i ≤ (i : ℤ) ∧
      tr.lengthNP i = (countNonNopNP tr i : ℤ) ∧
      tr.lengthNP i ≤ (i : ℤ) := by
  obtain ⟨hs, -⟩ := queryAt_parts h
  obtain ⟨hini, -, -⟩ := solverConstraints_parts hs
  obtain ⟨-, -, -, -, hlf0, hln0⟩ := initialConstraints_parts hini
  intro i
  induction i with
  | zero =>
    intro _
    refine ⟨?_, ?_, ?_, ?_⟩ <;>
      simp [hlf0, hln0, countNonNopFP, countNonNopNP, stepsUpTo]
  | succ n ih =>
    intro hit
    obtain ⟨ihf, -, ihn, -⟩ := ih (by omega)
    obtain ⟨-, -, hts⟩ := addCOIT_parts (queryAt_addCOIT h (n + 1) hit)
    obtain ⟨hf0, hf1, hn0, hn1⟩ := totalStep_length hts (by omega)
    have hsf : tr.lengthFP (n + 1) = (countNonNopFP tr (n + 1) : ℤ) := by
      rw [countNonNopFP_succ]
      by_cases hfp : tr.fp (n + 1) = NOP_TRANSITION
      · rw [if_neg (by simpa using hfp)]
        simpa [ihf] using hf0 hfp
      · rw [if_pos hfp]
        push_cast
        simpa [ihf] using hf1 hfp
    have hsn : tr.lengthNP (n + 1) = (countNonNopNP tr (n + 1) : ℤ) := by
      rw [countNonNopNP_succ]
      by_cases hnp : tr.np (n + 1) = NOP_TRANSITION
      · rw [if_neg (by simpa using hnp)]
        simpa [ihn] using hn0 hnp
      · rw [if_pos hnp]
        push_cast
        simpa [ihn] using hn1 hnp
    refine ⟨hsf, ?_, hsn, ?_⟩
    · rw [hsf]
      exact_mod_cast countNonNopFP_le tr (n + 1)
    · rw [hsn]
      exact_mod_cast countNonNopNP_le tr (n + 1)

/-- Witness for `C7_length_counters`: in the concrete round-1 model both
runs take one real (non-NOP) step at position 1, so both length counters
are 1 there. -/
theorem C7_witness :
    queryAt exSys 1 0 exTrace = some true ∧
    (∀ i ≤ 1, exTrace.lengthFP i = (countNonNopFP exTrace i : ℤ) ∧
      exTrace.lengthFP i ≤ (i : ℤ) ∧
      exTrace.lengthNP i = (countNonNopNP exTrace i : ℤ) ∧
      exTrace.lengthNP i ≤ (i : ℤ)) :=
  ⟨by with_unfolding_all rfl,
   C7_length_counters exSys 1 0 exTrace (by with_unfolding_all rfl)⟩

/-- Claim C4, counterexample to the claim as stated.  On the concrete
parsed automaton `exA0`, preprocessing yields 3 transitions; the
synthetic stutter transition appended by `setup_transitions` (event
`NO_OBS`) does occupy the last index 2, but the sentinel the encoder
compares against in its NOP rules is `NOP_TRANSITION = 0` — the
constructor's initial self-loop — not the last index. -/
theorem C4_counterexample :
    mkSystem exA0 = some exSys ∧
    exSys.nbTr = 3 ∧
    (exSys.auto.transitionList.getLast?).map (fun tn => tn.event) =
      some NO_OBS ∧
    NOP_TRANSITION ≠ (exSys.nbTr : ℤ) - 1 := by
  refine ⟨by decide, by decide, by decide, by decide⟩

/-- Claim C4, amended.  The synthetic transition appended by
`setup_transitions` does occupy the last index of the transition list
(event `NO_OBS`, guard `c<i>=0` per clock, all clocks reset), but the
stutter sentinel used by the encoder's NOP rules — delay forced to 0
after a NOP step, length counter unchanged on a NOP step, last-active
propagation on a NOP step — is the constant `NOP_TRANSITION = 0`, i.e.
the self-loop the `Automaton` constructor placed at index 0, not the last
index (the appended last-index transition instead serves as the forced
value of `fp[0]`/`np[0]`). -/
theorem C4_amended_sentinel (A A2 : AutomatonV) (nx : List (List ℕ))
    (sys : EncSystem) (pos obsV idx : ℕ) (tr : Trace)
    (hsetup : setupTransitions A = some (A2, nx)) :
    (A2.transitionList.length = A.transitionList.length + 1 ∧
     ∃ tn, A2.transitionList.getLast? = some tn ∧ tn.event = NO_OBS ∧
       tn.guard = nopGuards A.clockNum ∧ tn.reset = List.range A.clockNum) ∧
    NOP_TRANSITION = 0 ∧
    (totalStep sys pos obsV tr = true →
      (tr.fp pos = NOP_TRANSITION → tr.delayFP (pos + 1) = 0) ∧
      (1 ≤ pos → tr.fp pos = NOP_TRANSITION →
        tr.lengthFP pos = tr.lengthFP (pos - 1))) ∧
    (incBoundConstraints sys idx tr = some true →
      tr.fp idx = NOP_TRANSITION → tr.lfp idx = tr.lfp (idx - 1)) := by
  obtain ⟨st, tt, hlist⟩ := setupTransitions_inv hsetup
  refine ⟨⟨by simp [hlist], ?_⟩, rfl, fun hts => ?_, fun hinc => ?_⟩
  · exact ⟨⟨st, tt, NO_OBS, nopGuards A.clockNum, List.range A.clockNum⟩,
      by rw [hlist]; simp [List.getLast?_concat], rfl, rfl, rfl⟩
  · exact ⟨(totalStep_nop_delay hts).1,
      fun hpos hfp => (totalStep_length hts hpos).1 hfp⟩
  · exact (incBound_parts hinc).2.2.2.2.2

/-- Witness for `C4_amended_sentinel` on the concrete automaton `exA0`
and the concrete round-1 model. -/
theorem C4_witness :
    ((exSys.auto.transitionList.length = exA0.transitionList.length + 1 ∧
      ∃ tn, exSys.auto.transitionList.getLast? = some tn ∧
        tn.event = NO_OBS ∧ tn.guard = nopGuards exA0.clockNum ∧
        tn.reset = List.range exA0.clockNum) ∧
     NOP_TRANSITION = 0 ∧
     (totalStep exSys 0 0 exTrace = true →
       (exTrace.fp 0 = NOP_TRANSITION → exTrace.delayFP 1 = 0) ∧
       (1 ≤ 0 → exTrace.fp 0 = NOP_TRANSITION →
         exTrace.lengthFP 0 = exTrace.lengthFP (0 - 1))) ∧
     (incBoundConstraints exSys 1 exTrace = some true →
       exTrace.fp 1 = NOP_TRANSITION → exTrace.lfp 1 = exTrace.lfp 0)) :=
  C4_amended_sentinel exA0 exSys.auto exSys.nextTransition exSys 0 0 1
    exTrace (by decide)

/-! ### Trace-irrelevance of the encoder's crash behaviour

Whether a constraint-building function returns `none` (an uncaught
exception in the Python code) depends only on the automaton's guard and
invariant strings and on the step position, never on the trace the built
constraints are later evaluated at: every fallible operation happens
while PARSING, before any z3 expression is assembled.  The lemmas below
prove this, so the crash behaviour of `runEncode` is well defined. -/

theorem option_isSome_eq_none {α β : Type} {o : Option α} {o' : Option β}
    (h : o.isSome = o'.isSome) (ho : o = none) : o' = none := by
  subst ho
  cases o' with
  | none => rfl
  | some a => simp at h

theorem transConstraint1_isSome_irrel (cn : ℕ) (c : List Char)
    (idx idx' : ℕ) (pt pt' : PathType) (tr tr' : Trace) :
    (transConstraint1 cn c idx pt tr).isSome =
    (transConstraint1 cn c idx' pt' tr').isSome := by
  unfold transConstraint1
  cases transConstraintParts c with
  | none => rfl
  | some v =>
    obtain ⟨flag, numberS, clockS⟩ := v
    dsimp only
    cases pyFloat numberS with
    | none => rfl
    | some number =>
      dsimp only
      cases findClock cn clockS with
      | none => rfl
      | some k => rfl

theorem transConstraints_isSome_irrel (cn : ℕ) (idx idx' : ℕ)
    (pt pt' : PathType) (tr tr' : Trace) :
    ∀ atoms, (transConstraints cn atoms idx pt tr).isSome =
      (transConstraints cn atoms idx' pt' tr').isSome := by
  intro atoms
  induction atoms with
  | nil => rfl
  | cons a rest ih =>
    unfold transConstraints
    have h1 := transConstraint1_isSome_irrel cn a idx idx' pt pt' tr tr'
    cases ha : transConstraint1 cn a idx pt tr with
    | none =>
      rw [option_isSome_eq_none h1 ha]
    | some item =>
      cases ha' : transConstraint1 cn a idx' pt' tr' with
      | none =>
        rw [ha, ha'] at h1
        simp at h1
      | some item' =>
        cases hb : transConstraints cn rest idx pt tr with
        | none =>
          rw [option_isSome_eq_none ih hb]
        | some others =>
          cases hb' : transConstraints cn rest idx' pt' tr' with
          | none =>
            rw [hb, hb'] at ih
            simp at ih
          | some others' => rfl

theorem guardOf_isSome_irrel (cn : ℕ) (g : List (List Char)) (idx idx' : ℕ)
    (pt pt' : PathType) (tr tr' : Trace) :
    (guardOf cn g idx pt tr).isSome = (guardOf cn g idx' pt' tr').isSome := by
  unfold guardOf
  cases parseConstraints g with
  | none => rfl
  | some atoms =>
    dsimp only
    have h := transConstraints_isSome_irrel cn idx idx' pt pt' tr tr' atoms
    cases ha : transConstraints cn atoms idx pt tr with
    | none =>
      rw [option_isSome_eq_none h ha]
    | some items =>
      cases ha' : transConstraints cn atoms idx' pt' tr' with
      | none =>
        rw [ha, ha'] at h
        simp at h
      | some items' => rfl

theorem parseInvGo_isSome_irrel (clock pos pos' : ℕ) (pt pt' : PathType)
    (tr tr' : Trace) :
    ∀ l, (parseInvGo clock pos pt tr l).isSome =
      (parseInvGo clock pos' pt' tr' l).isSome := by
  intro l
  induction l with
  | nil => rfl
  | cons inv rest ih =>
    unfold parseInvGo
    cases pyIdx (pySplitGo ['c'] inv) 1 with
    | none => rfl
    | some ci =>
      dsimp only
      by_cases hci : ci = natDigits (clock + 1)
      · rw [if_pos hci, if_pos hci]
        cases pyFloat ((pySplitGo ['>'] inv).headD []) with
        | none => rfl
        | some number => rfl
      · rw [if_neg hci, if_neg hci]
        exact ih

theorem parseInv_isSome_irrel (invariant : InvariantV) (clock pos pos' : ℕ)
    (pt pt' : PathType) (tr tr' : Trace) :
    (parseInv invariant clock pos pt tr).isSome =
    (parseInv invariant clock pos' pt' tr').isSome := by
  cases invariant with
  | int n => rfl
  | str s =>
    exact parseInvGo_isSome_irrel clock pos pos' pt pt' tr tr' (pySplitGo [';'] s)

theorem optionAll_isSome_congr {α : Type} {f g : α → Option Bool}
    (h : ∀ a, (f a).isSome = (g a).isSome) :
    ∀ l, (optionAll f l).isSome = (optionAll g l).isSome := by
  intro l
  induction l with
  | nil => rfl
  | cons a as ih =>
    unfold optionAll
    cases ha : f a with
    | none =>
      rw [option_isSome_eq_none (h a) ha]
    | some b =>
      cases ha' : g a with
      | none =>
        have hh := h a
        rw [ha, ha'] at hh
        simp at hh
      | some b' =>
        cases hb : optionAll f as with
        | none =>
          rw [option_isSome_eq_none ih hb]
        | some c =>
          cases hb' : optionAll g as with
          | none =>
            rw [hb, hb'] at ih
            simp at ih
          | some c' => rfl

theorem stepJInvPart_isSome_irrel (sys : EncSystem) (pos j i : ℕ)
    (tr tr' : Trace) :
    (stepJInvPart sys pos j tr i).isSome =
    (stepJInvPart sys pos j tr' i).isSome := by
  simp only [stepJInvPart]
  have h1 := parseInv_isSome_irrel (sys.auto.transAt j).source.invariant
    i pos pos .f .f tr tr'
  have h2 := parseInv_isSome_irrel (sys.auto.transAt j).target.invariant
    i (pos + 1) (pos + 1) .f .f tr tr'
  have h3 := parseInv_isSome_irrel (sys.auto.transAt j).source.invariant
    i pos pos .n .n tr tr'
  have h4 := parseInv_isSome_irrel (sys.auto.transAt j).target.invariant
    i (pos + 1) (pos + 1) .n .n tr tr'
  cases hp1 : parseInv (sys.auto.transAt j).source.invariant i pos .f tr with
  | none =>
    rw [option_isSome_eq_none h1 hp1]
  | some srcF =>
    cases hp1' : parseInv (sys.auto.transAt j).source.invariant i pos .f tr' with
    | none => rw [hp1, hp1'] at h1; simp at h1
    | some srcF' =>
      cases hp2 : parseInv (sys.auto.transAt j).target.invariant
          i (pos + 1) .f tr with
      | none =>
        rw [option_isSome_eq_none h2 hp2]
      | some finF =>
        cases hp2' : parseInv (sys.auto.transAt j).target.invariant
            i (pos + 1) .f tr' with
        | none => rw [hp2, hp2'] at h2; simp at h2
        | some finF' =>
          cases hp3 : parseInv (sys.auto.transAt j).source.invariant
              i pos .n tr with
          | none =>
            rw [option_isSome_eq_none h3 hp3]
          | some srcN =>
            cases hp3' : parseInv (sys.auto.transAt j).source.invariant
                i pos .n tr' with
            | none => rw [hp3, hp3'] at h3; simp at h3
            | some srcN' =>
              cases hp4 : parseInv (sys.auto.transAt j).target.invariant
                  i (pos + 1) .n tr with
              | none =>
                rw [option_isSome_eq_none h4 hp4]
              | some finN =>
                cases hp4' : parseInv (sys.auto.transAt j).target.invariant
                    i (pos + 1) .n tr' with
                | none => rw [hp4, hp4'] at h4; simp at h4
                | some finN' => rfl

theorem stepJ_isSome_irrel (sys : EncSystem) (pos j : ℕ) (tr tr' : Trace) :
    (stepJ sys pos j tr).isSome = (stepJ sys pos j tr').isSome := by
  simp only [stepJ]
  have hgF := guardOf_isSome_irrel sys.clockNum (sys.auto.transAt j).guard
    pos pos .f .f tr tr'
  have hgN := guardOf_isSome_irrel sys.clockNum (sys.auto.transAt j).guard
    pos pos .n .n tr tr'
  have hall := optionAll_isSome_congr
    (fun i => stepJInvPart_isSome_irrel sys pos j i tr tr')
    (List.range sys.clockNum)
  cases h1 : guardOf sys.clockNum (sys.auto.transAt j).guard pos .f tr with
  | none =>
    rw [option_isSome_eq_none hgF h1]
  | some gF =>
    cases h1' : guardOf sys.clockNum (sys.auto.transAt j).guard pos .f tr' with
    | none => rw [h1, h1'] at hgF; simp at hgF
    | some gF' =>
      cases h2 : guardOf sys.clockNum (sys.auto.transAt j).guard pos .n tr with
      | none =>
        rw [option_isSome_eq_none hgN h2]
      | some gN =>
        cases h2' : guardOf sys.clockNum (sys.auto.transAt j).guard
            pos .n tr' with
        | none => rw [h2, h2'] at hgN; simp at hgN
        | some gN' =>
          cases ho : optionAll (stepJInvPart sys pos j tr)
              (List.range sys.clockNum) with
          | none =>
            rw [option_isSome_eq_none hall ho]
          | some invPart =>
            cases ho' : optionAll (stepJInvPart sys pos j tr')
                (List.range sys.clockNum) with
            | none => rw [ho, ho'] at hall; simp at hall
            | some invPart' => rfl

theorem addCOIT_isSome_irrel (sys : EncSystem) (pos : ℕ) (tr tr' : Trace) :
    (addCOIT sys pos tr).isSome = (addCOIT sys pos tr').isSome := by
  unfold addCOIT
  have hall := optionAll_isSome_congr
    (fun j => stepJ_isSome_irrel sys pos j tr tr') (List.range sys.nbTr)
  cases hJ : optionAll (fun j => stepJ sys pos j tr) (List.range sys.nbTr) with
  | none =>
    rw [option_isSome_eq_none hall hJ]
  | some perJ =>
    cases hJ' : optionAll (fun j => stepJ sys pos j tr') (List.range sys.nbTr) with
    | none => rw [hJ, hJ'] at hall; simp at hall
    | some perJ' => cases obsIdx sys pos <;> rfl

/-- Whether `incBound` crashes while building the round's constraints
does not depend on the trace the constraints are evaluated at. -/
theorem incBound_none_trace_irrel (sys : EncSystem) (idx : ℕ)
    (tr tr' : Trace) :
    incBoundConstraints sys idx tr = none ↔
    incBoundConstraints sys idx tr' = none := by
  unfold incBoundConstraints
  have h := addCOIT_isSome_irrel sys idx tr tr'
  cases hc : addCOIT sys idx tr with
  | none =>
    rw [option_isSome_eq_none h hc]
  | some cI =>
    cases hc' : addCOIT sys idx tr' with
    | none => rw [hc, hc'] at h; simp at h
    | some cI' => simp

theorem incBound_none_of_ge {sys : EncSystem} {idx : ℕ} (tr : Trace)
    (h : sys.nbTr ≤ idx) : incBoundConstraints sys idx tr = none := by
  unfold incBoundConstraints
  rw [addCOIT_none_of_ge tr h]

/-! ### Behaviour of the encoding-tracking driver -/

theorem runEncode_crash (sys : EncSystem) (tr : Trace)
    (check : ℕ → SolverRes) :
    ∀ r cpt, cpt ≤ sys.nbTr → sys.nbTr < cpt + r →
    (∀ t, cpt ≤ t → t < sys.nbTr → incBoundConstraints sys t tr ≠ none) →
    (∀ t, cpt ≤ t → t < sys.nbTr → check t ≠ .sat) →
    runEncode sys tr check r cpt = .crash sys.nbTr := by
  intro r
  induction r with
  | zero => intro cpt h1 h2 _ _; omega
  | succ n ih =>
    intro cpt h1 h2 hok hno
    unfold runEncode
    by_cases hct : cpt = sys.nbTr
    · subst hct
      rw [incBound_none_of_ge tr le_rfl]
    · have hlt : cpt < sys.nbTr := lt_of_le_of_ne h1 hct
      cases hi : incBoundConstraints sys cpt tr with
      | none => exact absurd hi (hok cpt le_rfl hlt)
      | some b =>
        cases hc : check cpt with
        | sat => exact absurd hc (hno cpt le_rfl hlt)
        | unsat =>
          exact ih (cpt + 1) (by omega) (by omega)
            (fun t ht1 ht2 => hok t (by omega) ht2)
            (fun t ht1 ht2 => hno t (by omega) ht2)
        | unknown =>
          exact ih (cpt + 1) (by omega) (by omega)
            (fun t ht1 ht2 => hok t (by omega) ht2)
            (fun t ht1 ht2 => hno t (by omega) ht2)

theorem runEncode_first_sat (sys : EncSystem) (tr : Trace)
    (check : ℕ → SolverRes) :
    ∀ r cpt t, cpt ≤ t → t < cpt + r → check t = .sat →
    (∀ s, cpt ≤ s → s < t → check s ≠ .sat) →
    (∀ s, cpt ≤ s → s ≤ t → incBoundConstraints sys s tr ≠ none) →
    runEncode sys tr check r cpt = .satAt t := by
  intro r
  induction r with
  | zero => intro cpt t h1 h2 _ _ _; omega
  | succ n ih =>
    intro cpt t h1 h2 hsat hno hok
    unfold runEncode
    cases hi : incBoundConstraints sys cpt tr with
    | none => exact absurd hi (hok cpt le_rfl h1)
    | some b =>
      by_cases hct : cpt = t
      · subst hct
        rw [hsat]
      · have hlt : cpt < t := lt_of_le_of_ne h1 hct
        have hne : check cpt ≠ .sat := hno cpt le_rfl hlt
        cases hc : check cpt with
        | sat => exact absurd hc hne
        | unsat =>
          exact ih (cpt + 1) t (by omega) (by omega) hsat
            (fun s hs1 hs2 => hno s (by omega) hs2)
            (fun s hs1 hs2 => hok s (by omega) hs2)
        | unknown =>
          exact ih (cpt + 1) t (by omega) (by omega) hsat
            (fun s hs1 hs2 => hno s (by omega) hs2)
            (fun s hs1 hs2 => hok s (by omega) hs2)

/-- Claim C5, counterexample to the claim as stated.  The claim concludes
that ANY run with `BOUND` at least the transition count crashes; but each
round queries the solver after encoding its step, and `run()` returns at
the first sat answer (line 571-576), so a sat round below `nbTr` ends the
run before the out-of-range position is ever encoded.  Concretely:
`exSys` has `nbTr = 3` and its round-1 query with `DELTA = 0` is already
satisfiable (`exTrace` is a model, so a real solver answers sat in round
1), hence the run with `BOUND = 3 ≥ nbTr` prints sat in round 1 — it does
not crash. -/
theorem C5_counterexample :
    exSys.nbTr = 3 ∧
    queryAt exSys 1 0 exTrace = some true ∧
    runDriverEncode exSys exTrace (fun _ => SolverRes.sat) 3 =
      RunOutcome.satAt 1 :=
  ⟨by decide, by with_unfolding_all rfl, by with_unfolding_all rfl⟩

/-- Claim C5, amended.  The per-transition list `isObservableTransition`
is created once with exactly `getNbTransition()` entries and the
synchronization rule subscripts it by the step position, so the per-step
encoder `addConstraintOnIdTransition(pos)` raises `IndexError` (returns
`none`) for every `pos ≥ nbTr` and is index-safe strictly below `nbTr`.
Each round of `run()` first encodes one more step (positions `1, 2, …`)
and only then queries the solver, so a run whose `BOUND` is at least the
transition count crashes in round `nbTr` — with an `IndexError` instead
of emitted constraints — UNLESS the solver reports sat at some earlier
round, in which case the run returns sat and never reaches the
out-of-range position (see `C5_counterexample`). -/
theorem C5_encoder_crash_unless_early_sat (sys : EncSystem) (pos : ℕ)
    (tr : Trace) :
    (sys.nbTr ≤ pos → addCOIT sys pos tr = none) ∧
    (pos < sys.nbTr → obsIdx sys pos = some pos) ∧
    (∀ BOUND check, sys.nbTr ≤ BOUND → 1 ≤ sys.nbTr →
      (∀ t, 1 ≤ t → t < sys.nbTr → incBoundConstraints sys t tr ≠ none) →
      (∀ t, 1 ≤ t → t < sys.nbTr → check t ≠ SolverRes.sat) →
      runDriverEncode sys tr check BOUND = RunOutcome.crash sys.nbTr) ∧
    (∀ BOUND check t, 1 ≤ t → t ≤ BOUND → check t = SolverRes.sat →
      (∀ s, 1 ≤ s → s < t → check s ≠ SolverRes.sat) →
      (∀ s, 1 ≤ s → s ≤ t → incBoundConstraints sys s tr ≠ none) →
      runDriverEncode sys tr check BOUND = RunOutcome.satAt t) := by
  refine ⟨fun hge => addCOIT_none_of_ge tr hge,
    fun hlt => obsIdx_eq_some hlt,
    fun BOUND check hb h1 hok hno => ?_,
    fun BOUND check t h1 h2 hsat hno hok => ?_⟩
  · exact runEncode_crash sys tr check BOUND 1 h1 (by omega) hok hno
  · exact runEncode_first_sat sys tr check BOUND 1 t h1 (by omega) hsat hno hok

/-- Witness for `C5_encoder_crash_unless_early_sat` on the concrete
system (`nbTr = 3`): position 3 crashes the encoder and position 1 is
safe; with an all-`unknown` oracle a `BOUND = 3` run crashes in round 3,
while with the unknown-then-sat oracle `exCheck` it stops at round 2 and
never crashes. -/
theorem C5_witness :
    addCOIT exSys 3 exTrace = none ∧
    obsIdx exSys 1 = some 1 ∧
    runDriverEncode exSys exTrace (fun _ => SolverRes.unknown) 3 =
      RunOutcome.crash 3 ∧
    runDriverEncode exSys exTrace exCheck 3 = RunOutcome.satAt 2 :=
  ⟨(C5_encoder_crash_unless_early_sat exSys 3 exTrace).1 (by decide),
   (C5_encoder_crash_unless_early_sat exSys 1 exTrace).2.1 (by decide),
   (C5_encoder_crash_unless_early_sat exSys 3 exTrace).2.2.1 3
     (fun _ => SolverRes.unknown) (by decide) (by decide)
     (by
       intro t h1 h2
       have h3 : t < 3 := lt_of_lt_of_eq h2 (by decide)
       interval_cases t
       · rw [show incBoundConstraints exSys 1 exTrace = some true from
           by with_unfolding_all rfl]
         simp
       · rw [show incBoundConstraints exSys 2 exTrace = some false from
           by with_unfolding_all rfl]
         simp)
     (by intro t h1 h2; simp),
   (C5_encoder_crash_unless_early_sat exSys 3 exTrace).2.2.2 3 exCheck 2
     (by decide) (by decide) (by decide)
     (by intro s h1 h2; interval_cases s; simp [exCheck])
     (by
       intro s h1 h2
       interval_cases s
       · rw [show incBoundConstraints exSys 1 exTrace = some true from
           by with_unfolding_all rfl]
         simp
       · rw [show incBoundConstraints exSys 2 exTrace = some false from
           by with_unfolding_all rfl]
         simp)⟩

/-- Claim C8, counterexample to the claim as stated.  With `BOUND = 0` the
`while cpt <= BOUND` loop body never runs, so `run()` performs NO solver
query at all and unconditionally reports UNSAT — even under an oracle
that would answer sat, and even though `DELTA = 0` IS satisfiable at step
0 (the concrete trace `exTrace` satisfies the step-0 constraint set with
`delta = 0` and `cptFault[0] = 0`); the code never reports SAT at step 0. -/
theorem C8_counterexample :
    runDriver 0 (fun _ => SolverRes.sat) = (RunReport.unsatReport, 0) ∧
    step0Query exSys 0 exTrace = some true :=
  ⟨rfl, by with_unfolding_all rfl⟩

/-- Claim C8, amended.  When `BOUND = 0` the driver performs no unrolling
beyond the initial step and no solver query at all: it reports UNSAT
unconditionally, regardless of the solver oracle (in particular even when
`DELTA = 0` is satisfiable at step 0). -/
theorem C8_bound_zero_always_unsat (check : ℕ → SolverRes) :
    runDriver 0 check = (RunReport.unsatReport, 0) := rfl

theorem runFrom_rounds_le (check : ℕ → SolverRes) :
    ∀ r cpt rounds, (runFrom check r cpt rounds).2 ≤ rounds + r := by
  intro r
  induction r with
  | zero => intro cpt rounds; simp [runFrom]
  | succ n ih =>
    intro cpt rounds
    unfold runFrom
    cases check cpt with
    | sat => simp
    | unsat => exact le_trans (ih (cpt + 1) (rounds + 1)) (by omega)
    | unknown => exact le_trans (ih (cpt + 1) (rounds + 1)) (by omega)

theorem runFrom_first_sat (check : ℕ → SolverRes) :
    ∀ r cpt rounds t, cpt ≤ t → t < cpt + r → check t = .sat →
    (∀ s, cpt ≤ s → s < t → check s ≠ .sat) →
    runFrom check r cpt rounds = (.satAt t, rounds + (t - cpt) + 1) := by
  intro r
  induction r with
  | zero => intro cpt rounds t h1 h2 _ _; omega
  | succ n ih =>
    intro cpt rounds t h1 h2 hsat hno
    unfold runFrom
    by_cases hct : cpt = t
    · subst hct
      rw [hsat]
      simp [Nat.sub_self]
    · have hlt : cpt < t := lt_of_le_of_ne h1 hct
      have hne : check cpt ≠ .sat := hno cpt le_rfl hlt
      have heq : rounds + 1 + (t - (cpt + 1)) + 1 = rounds + (t - cpt) + 1 := by
        omega
      cases hc : check cpt with
      | sat => exact absurd hc hne
      | unsat =>
        rw [ih (cpt + 1) (rounds + 1) t (by omega) (by omega) hsat
          (fun s hs1 hs2 => hno s (by omega) hs2), heq]
      | unknown =>
        rw [ih (cpt + 1) (rounds + 1) t (by omega) (by omega) hsat
          (fun s hs1 hs2 => hno s (by omega) hs2), heq]

theorem runFrom_congr (check check' : ℕ → SolverRes)
    (hcc : ∀ s, check s = .sat ↔ check' s = .sat) :
    ∀ r cpt rounds, runFrom check r cpt rounds = runFrom check' r cpt rounds := by
  intro r
  induction r with
  | zero => intro cpt rounds; rfl
  | succ n ih =>
    intro cpt rounds
    unfold runFrom
    cases hc : check cpt with
    | sat => rw [(hcc cpt).mp hc]
    | unsat =>
      cases hc' : check' cpt with
      | sat => exact absurd ((hcc cpt).mpr hc') (by rw [hc]; simp)
      | unsat => exact ih (cpt + 1) (rounds + 1)
      | unknown => exact ih (cpt + 1) (rounds + 1)
    | unknown =>
      cases hc' : check' cpt with
      | sat => exact absurd ((hcc cpt).mpr hc') (by rw [hc]; simp)
      | unsat => exact ih (cpt + 1) (rounds + 1)
      | unknown => exact ih (cpt + 1) (rounds + 1)

theorem runFrom_no_sat (check : ℕ → SolverRes) :
    ∀ r cpt rounds, (∀ s, cpt ≤ s → s < cpt + r → check s ≠ .sat) →
    runFrom check r cpt rounds = (.unsatReport, rounds + r) := by
  intro r
  induction r with
  | zero => intro cpt rounds _; rfl
  | succ n ih =>
    intro cpt rounds hno
    unfold runFrom
    cases hc : check cpt with
    | sat => exact absurd hc (hno cpt le_rfl (by omega))
    | unsat =>
      have heq : rounds + 1 + n = rounds + (n + 1) := by omega
      rw [ih (cpt + 1) (rounds + 1) (fun s hs1 hs2 => hno s (by omega) (by omega)),
        heq]
    | unknown =>
      have heq : rounds + 1 + n = rounds + (n + 1) := by omega
      rw [ih (cpt + 1) (rounds + 1) (fun s hs1 hs2 => hno s (by omega) (by omega)),
        heq]

/-- Claim C9. `run()` terminates after at most `BOUND` solver rounds, each
round extending the horizon by exactly one step (one `incBound`); it
returns immediately after the first round whose solver result is sat; it
treats every other result (`unsat` and `unknown` alike) identically —
its behaviour depends only on which rounds answer sat — printing the
increase-the-bound message and continuing; and when no round in
`1 … BOUND` answers sat it reports the problem UNSAT after exactly
`BOUND` rounds. -/
theorem C9_driver_behaviour (BOUND : ℕ) (check : ℕ → SolverRes) :
    (runDriver BOUND check).2 ≤ BOUND ∧
    (∀ t, 1 ≤ t → t ≤ BOUND → check t = .sat →
      (∀ s, 1 ≤ s → s < t → check s ≠ .sat) →
      runDriver BOUND check = (.satAt t, t)) ∧
    (∀ check', (∀ s, check s = .sat ↔ check' s = .sat) →
      runDriver BOUND check = runDriver BOUND check') ∧
    ((∀ s, 1 ≤ s → s ≤ BOUND → check s ≠ .sat) →
      runDriver BOUND check = (.unsatReport, BOUND)) := by
  refine ⟨?_, fun t h1 h2 hsat hno => ?_, fun check' hcc => ?_, fun hno => ?_⟩
  · simpa using runFrom_rounds_le check BOUND 1 0
  · have h := runFrom_first_sat check BOUND 1 0 t h1 (by omega) hsat hno
    have ht : 0 + (t - 1) + 1 = t := by omega
    rw [ht] at h
    rw [runDriver, h]
  · exact runFrom_congr check check' hcc BOUND 1 0
  · have h := runFrom_no_sat check BOUND 1 0
      (fun s hs1 hs2 => hno s hs1 (by omega))
    have hb : 0 + BOUND = BOUND := by omega
    rw [hb] at h
    rw [runDriver, h]

/-- Witness for `C9_driver_behaviour`: with `BOUND = 5` and an oracle
answering `unknown` in round 1 and `sat` in round 2, the driver stops in
round 2 after 2 rounds. -/
theorem C9_witness :
    (runDriver 5 exCheck).2 ≤ 5 ∧
    runDriver 5 exCheck = (.satAt 2, 2) :=
  ⟨(C9_driver_behaviour 5 exCheck).1,
   (C9_driver_behaviour 5 exCheck).2.1 2 (by decide) (by decide) (by decide)
     (by decide)⟩

/-! ### Split and digit lemmas for the NOP guard -/

theorem isPrefixOfB_refl : ∀ s : List Char, isPrefixOfB s s = true := by
  intro s
  induction s with
  | nil => rfl
  | cons c rest ih => simp [isPrefixOfB, ih]

theorem pySplitFuel_not_mem {c₀ : Char} :
    ∀ {s : List Char} {fuel : ℕ}, s.length ≤ fuel → c₀ ∉ s →
    pySplitFuel [c₀] fuel s = [s] := by
  intro s
  induction s with
  | nil => intro fuel _ _; cases fuel <;> rfl
  | cons c rest ih =>
    intro fuel hlen hmem
    obtain ⟨f, rfl⟩ : ∃ f, fuel = f + 1 := by
      cases fuel
      · simp at hlen
      · exact ⟨_, rfl⟩
    have hne : c₀ ≠ c := fun hcc => hmem (by rw [hcc]; exact List.mem_cons_self c rest)
    unfold pySplitFuel
    rw [if_neg (by simp [isPrefixOfB, hne])]
    rw [ih (by simpa using Nat.le_of_succ_le_succ hlen)
      (fun hr => hmem (List.mem_cons_of_mem c hr))]

theorem pySplitFuel_self :
    ∀ {s : List Char} {fuel : ℕ}, s ≠ [] → s.length ≤ fuel →
    pySplitFuel s fuel s = [[], []] := by
  intro s fuel hne hlen
  match s, fuel with
  | c :: rest, f + 1 =>
    unfold pySplitFuel
    rw [if_pos ⟨by simp, isPrefixOfB_refl _⟩]
    have : List.drop ((c :: rest).length - 1) rest = [] := by
      simp [List.drop_length]
    rw [this]
    cases f <;> rfl
  | c :: rest, 0 => simp at hlen

theorem pySplitGo_single_head {c₀ : Char} {rest : List Char}
    (h : c₀ ∉ rest) : pySplitGo [c₀] (c₀ :: rest) = [[], rest] := by
  unfold pySplitGo
  simp only [List.length_cons]
  unfold pySplitFuel
  rw [if_pos ⟨by simp, by simp [isPrefixOfB]⟩]
  simp only [List.length_singleton, Nat.sub_self, List.drop_zero]
  rw [pySplitFuel_not_mem le_rfl h]

theorem natDigitsGo_mem :
    ∀ (fuel n : ℕ) (acc : List Char) (c : Char),
    c ∈ natDigitsGo fuel n acc → c ∈ acc ∨ ∃ d, d < 10 ∧ c = digitChar d := by
  intro fuel
  induction fuel with
  | zero => intro n acc c hc; exact Or.inl hc
  | succ f ih =>
    intro n acc c hc
    unfold natDigitsGo at hc
    by_cases hn : n < 10
    · rw [if_pos hn] at hc
      rcases List.mem_cons.mp hc with rfl | hacc
      · exact Or.inr ⟨n, hn, rfl⟩
      · exact Or.inl hacc
    · rw [if_neg hn] at hc
      rcases ih (n / 10) (digitChar (n % 10) :: acc) c hc with hacc | hd
      · rcases List.mem_cons.mp hacc with rfl | hacc'
        · exact Or.inr ⟨n % 10, Nat.mod_lt _ (by omega), rfl⟩
        · exact Or.inl hacc'
      · exact Or.inr hd

theorem natDigits_mem {n : ℕ} {c : Char} (hc : c ∈ natDigits n) :
    ∃ d, d < 10 ∧ c = digitChar d := by
  rcases natDigitsGo_mem (n + 1) n [] c hc with hacc | hd
  · simp at hacc
  · exact hd

theorem digitChar_ne_c_gt {d : ℕ} (h : d < 10) :
    digitChar d ≠ 'c' ∧ digitChar d ≠ '>' := by
  interval_cases d <;> exact ⟨by decide, by decide⟩

theorem c_not_mem_nop_tail (n : ℕ) :
    'c' ∉ natDigits n ++ ['=', '0'] := by
  intro hmem
  rcases List.mem_append.mp hmem with hd | htail
  · obtain ⟨d, hd10, hdc⟩ := natDigits_mem hd
    exact (digitChar_ne_c_gt hd10).1 hdc.symm
  · simp at htail

theorem gt_not_mem_nop_tail (n : ℕ) :
    '>' ∉ natDigits n ++ ['=', '0'] := by
  intro hmem
  rcases List.mem_append.mp hmem with hd | htail
  · obtain ⟨d, hd10, hdc⟩ := natDigits_mem hd
    exact (digitChar_ne_c_gt hd10).2 hdc.symm
  · simp at htail

theorem parseConstraint1_nop (n : ℕ) :
    parseConstraint1 ('c' :: (natDigits n ++ ['=', '0'])) = some [] := by
  unfold parseConstraint1
  rw [pySplitGo_single_head (c_not_mem_nop_tail n)]
  simp only [pyIdx, List.get?]
  have hgt : pySplitGo ['>'] (natDigits n ++ ['=', '0']) =
      [natDigits n ++ ['=', '0']] := by
    unfold pySplitGo
    exact pySplitFuel_not_mem le_rfl (gt_not_mem_nop_tail n)
  rw [hgt]
  have hself : pySplitGo ('c' :: (natDigits n ++ ['=', '0']))
      ('c' :: (natDigits n ++ ['=', '0'])) = [[], []] := by
    unfold pySplitGo
    exact pySplitFuel_self (by simp) le_rfl
  simp only [List.headD]
  rw [hself]
  rfl

theorem parseConstraints_of_all_nil {l : List (List Char)}
    (h : ∀ g ∈ l, parseConstraint1 g = some []) :
    parseConstraints l = some [] := by
  induction l with
  | nil => rfl
  | cons g gs ih =>
    unfold parseConstraints
    rw [h g (List.mem_cons_self g gs), ih (fun g' hg' => h g' (List.mem_cons_of_mem g hg'))]
    rfl

theorem parseConstraints_nopGuards (n : ℕ) :
    parseConstraints (nopGuards n) = some [] := by
  refine parseConstraints_of_all_nil (fun g hg => ?_)
  unfold nopGuards at hg
  obtain ⟨i, -, rfl⟩ := List.mem_map.mp hg
  exact parseConstraint1_nop (i + 1)

/-- Claim C10. `parseConstraints` drops equality atoms: on a guard atom of
the form `c<i>=0` — exactly the guard `setup_transitions` attaches to the
synthetic NOP transition for every clock — the atom is split on itself
(`clock = 'c' + constraint.split("c")[1].split(">")[0]` reconstructs the
whole atom), both parts are empty and nothing is appended, so the result
is the empty list; consequently the chosen-transition clock constraint
for the NOP transition is the empty conjunction `And([])` (true), and the
equality guard `c<i> = 0` is never enforced on any step taking the NOP
transition. -/
theorem C10_nop_guard_unenforced (n cn pos : ℕ) (pt : PathType) (tr : Trace)
    (A A2 : AutomatonV) (nx : List (List ℕ)) :
    parseConstraints (nopGuards n) = some [] ∧
    guardOf cn (nopGuards n) pos pt tr = some true ∧
    (setupTransitions A = some (A2, nx) →
      (A2.transitionList.getLast?).map (fun tn => tn.guard) =
        some (nopGuards A.clockNum)) := by
  refine ⟨parseConstraints_nopGuards n, ?_, fun hsetup => ?_⟩
  · unfold guardOf
    rw [parseConstraints_nopGuards n]
    rfl
  · obtain ⟨st, tt, hlist⟩ := setupTransitions_inv hsetup
    rw [hlist]
    simp [List.getLast?_concat]

/-- Witness for `C10_nop_guard_unenforced` at the concrete preprocessed
automaton (`exSys`, one clock). -/
theorem C10_witness :
    parseConstraints (nopGuards 1) = some [] ∧
    guardOf 1 (nopGuards 1) 0 PathType.f exTrace = some true ∧
    ((exSys.auto.transitionList.getLast?).map (fun tn => tn.guard) =
      some (nopGuards exA0.clockNum)) :=
  ⟨(C10_nop_guard_unenforced 1 1 0 .f exTrace exA0 exSys.auto
      exSys.nextTransition).1,
   (C10_nop_guard_unenforced 1 1 0 .f exTrace exA0 exSys.auto
      exSys.nextTransition).2.1,
   (C10_nop_guard_unenforced 1 1 0 .f exTrace exA0 exSys.auto
      exSys.nextTransition).2.2 (by decide)⟩

/-! ### Dictionary lemmas for the event-id maps -/

theorem applyUpds_cons {V : Type} (kv : List Char × V)
    (rest : List (List Char × V)) (d : List Char → V) :
    applyUpds (kv :: rest) d = applyUpds rest (dictUpd d kv.1 kv.2) := rfl

theorem applyUpds_append {V : Type} (a b : List (List Char × V))
    (d : List Char → V) :
    applyUpds (a ++ b) d = applyUpds b (applyUpds a d) := by
  unfold applyUpds
  rw [List.foldl_append]

theorem applyUpds_not_mem {V : Type} :
    ∀ {assigns : List (List Char × V)} {d : List Char → V} {k : List Char},
    k ∉ assigns.map Prod.fst → applyUpds assigns d k = d k := by
  intro assigns
  induction assigns with
  | nil => intro d k _; rfl
  | cons kv rest ih =>
    intro d k hk
    have hmemr : k ∉ rest.map Prod.fst := by
      intro hmem
      exact hk (by simp only [List.map_cons, List.mem_cons]; exact Or.inr hmem)
    have hne : ¬(k = kv.1) := by
      intro hkk
      exact hk (by simp only [List.map_cons, List.mem_cons]; exact Or.inl hkk)
    rw [applyUpds_cons, ih hmemr]
    unfold dictUpd
    rw [if_neg hne]

theorem enumAssign_keys {V : Type} (g : ℕ → V) :
    ∀ (l : List (List Char)) (i0 : ℕ), (enumAssign g i0 l).map Prod.fst = l := by
  intro l
  induction l with
  | nil => intro i0; rfl
  | cons k ks ih => intro i0; simp [enumAssign, ih]

theorem applyUpds_enumAssign_get {V : Type} (g : ℕ → V) :
    ∀ (l : List (List Char)) (i0 : ℕ) (d : List Char → V) (i : ℕ)
    (hi : i < l.length), l.Nodup →
    applyUpds (enumAssign g i0 l) d (l.get ⟨i, hi⟩) = g (i0 + i) := by
  intro l
  induction l with
  | nil => intro i0 d i hi; simp at hi
  | cons k ks ih =>
    intro i0 d i hi hnd
    obtain ⟨hk, hks⟩ := List.nodup_cons.mp hnd
    cases i with
    | zero =>
      show applyUpds ((k, g i0) :: enumAssign g (i0 + 1) ks) d k = g (i0 + 0)
      rw [applyUpds_cons,
        applyUpds_not_mem (by rw [enumAssign_keys]; exact hk)]
      simp [dictUpd]
    | succ i' =>
      show applyUpds ((k, g i0) :: enumAssign g (i0 + 1) ks) d
        (ks.get ⟨i', by simpa using Nat.lt_of_succ_lt_succ hi⟩) = g (i0 + (i' + 1))
      rw [applyUpds_cons,
        ih (i0 + 1) (dictUpd d k (g i0)) i'
          (by simpa using Nat.lt_of_succ_lt_succ hi) hks]
      congr 1
      omega

theorem applyUpds_const_mem {V : Type} (v : V) :
    ∀ (l : List (List Char)) (d : List Char → V) (k : List Char), k ∈ l →
    applyUpds (l.map (fun x => (x, v))) d k = v := by
  intro l
  induction l with
  | nil => intro d k hk; simp at hk
  | cons x xs ih =>
    intro d k hk
    show applyUpds ((x, v) :: xs.map (fun x => (x, v))) d k = v
    rw [applyUpds_cons]
    by_cases hxs : k ∈ xs
    · exact ih (dictUpd d x v) k hxs
    · have hx : k = x := by
        rcases List.mem_cons.mp hk with h | h
        · exact h
        · exact absurd h hxs
      rw [applyUpds_not_mem (by simpa using hxs), hx]
      simp [dictUpd]

/-- Claim C6, counterexample to the claim as stated.  In
`parsert.Parser._parse_header`, with 2 unobservable names `u1, u2` and
one observable name `o1`, the 2nd unobservable event `u2` receives id 2,
not the consecutive id 3 that the claim (`i`-th unobservable ↦ `i + 1`)
requires: `parsert.py` collapses EVERY unobservable name to id 2, and
starts observable ids at 3 regardless of how many unobservables exist. -/
theorem C6_counterexample :
    parsertEventId [['o', '1']] [['u', '1'], ['u', '2']] ['u', '2'] = 2 ∧
    (2 : ℤ) ≠ 2 + 1 := ⟨by decide, by decide⟩

/-- Claim C6, amended.  For pairwise-distinct event names not colliding
with the fault symbol: `generate_automaton.py`'s `_parse_header` realizes
exactly the claimed mapping — `f ↦ 1`, the `i`-th (0-based) unobservable
name ↦ `i + 2` (so unobservables start at 2), the `j`-th observable name
↦ `j + 2 + u` (immediately after the last unobservable id) — while
`parsert.py`'s parser instead maps `f ↦ 1` (special-cased in
`_parse_transition`), EVERY unobservable name to 2, and the `j`-th
observable name to `j + 3` independently of `u`; the two parsers agree
exactly when `u = 1`. -/
theorem C6_amended_event_ids (obs unobs : List (List Char))
    (hno : obs.Nodup) (hnu : unobs.Nodup)
    (hdisj : ∀ x ∈ unobs, x ∉ obs)
    (hf1 : ['f'] ∉ obs) (hf2 : ['f'] ∉ unobs) :
    (genEventId obs unobs ['f'] = some 1) ∧
    (∀ i (hi : i < unobs.length),
      genEventId obs unobs (unobs.get ⟨i, hi⟩) = some ((i : ℤ) + 2)) ∧
    (∀ j (hj : j < obs.length),
      genEventId obs unobs (obs.get ⟨j, hj⟩) =
        some ((j : ℤ) + 2 + unobs.length)) ∧
    (parsertEventId obs unobs ['f'] = 1) ∧
    (∀ x ∈ unobs, parsertEventId obs unobs x = 2) ∧
    (∀ j (hj : j < obs.length),
      parsertEventId obs unobs (obs.get ⟨j, hj⟩) = (j : ℤ) + 3) := by
  refine ⟨?_, fun i hi => ?_, fun j hj => ?_, ?_, fun x hx => ?_, fun j hj => ?_⟩
  · unfold genEventId
    rw [applyUpds_append,
      applyUpds_not_mem (by rw [enumAssign_keys]; exact hf1),
      applyUpds_cons,
      applyUpds_not_mem (by rw [enumAssign_keys]; exact hf2)]
    simp [dictUpd]
  · unfold genEventId
    have hnotobs : unobs.get ⟨i, hi⟩ ∉ obs :=
      hdisj _ (List.get_mem unobs i hi)
    rw [applyUpds_append,
      applyUpds_not_mem (by rw [enumAssign_keys]; exact hnotobs),
      applyUpds_cons,
      applyUpds_enumAssign_get _ unobs 0 _ i hi hnu]
    simp
  · unfold genEventId
    rw [applyUpds_append,
      applyUpds_enumAssign_get _ obs 0 _ j hj hno]
    simp
  · unfold parsertEventId
    rw [if_pos rfl]
  · unfold parsertEventId
    have hxf : ¬(x = ['f']) := by
      intro hh
      rw [hh] at hx
      exact hf2 hx
    rw [if_neg hxf]
    unfold parsertEventDict
    rw [applyUpds_append]
    exact applyUpds_const_mem 2 unobs _ x hx
  · unfold parsertEventId
    have hne : ¬(obs.get ⟨j, hj⟩ = ['f']) := by
      intro hh
      exact hf1 (hh ▸ List.get_mem obs j hj)
    rw [if_neg hne]
    unfold parsertEventDict
    have hnotun : obs.get ⟨j, hj⟩ ∉ unobs := by
      intro hmem
      exact hdisj _ hmem (List.get_mem obs j hj)
    rw [applyUpds_append,
      applyUpds_not_mem (by simpa using hnotun),
      applyUpds_enumAssign_get _ obs 0 _ j hj hno]
    simp

/-- Witness for `C6_amended_event_ids` on the concrete header with one
observable `o1` and one unobservable `u1` (`u = 1`, where both parsers
agree). -/
theorem C6_witness :
    (genEventId [['o', '1']] [['u', '1']] ['f'] = some 1) ∧
    (∀ i (hi : i < [['u', '1']].length),
      genEventId [['o', '1']] [['u', '1']] ([['u', '1']].get ⟨i, hi⟩) =
        some ((i : ℤ) + 2)) ∧
    (∀ j (hj : j < [['o', '1']].length),
      genEventId [['o', '1']] [['u', '1']] ([['o', '1']].get ⟨j, hj⟩) =
        some ((j : ℤ) + 2 + [['u', '1']].length)) ∧
    (parsertEventId [['o', '1']] [['u', '1']] ['f'] = 1) ∧
    (∀ x ∈ [['u', '1']], parsertEventId [['o', '1']] [['u', '1']] x = 2) ∧
    (∀ j (hj : j < [['o', '1']].length),
      parsertEventId [['o', '1']] [['u', '1']] ([['o', '1']].get ⟨j, hj⟩) =
        (j : ℤ) + 3) :=
  C6_amended_event_ids [['o', '1']] [['u', '1']] (by decide) (by decide)
    (by decide) (by decide) (by decide)
